import Mathlib

/-!
Shallow embedding of the chess engine in `src/game.rs` (struct `Game`,
enum `Piece`, the move generators, the FEN codec and the turn executor),
together with theorems settling the specification claims.

Modelling conventions:
* Rust `Vec<Vec<Piece>>` becomes `List (List Piece)`.
* Machine integers (`usize`) become `Nat`; a `usize` subtraction that would
  underflow in the source (a debug-mode panic) is modelled by an explicit
  range test feeding the panic path.
* A Rust panic (failed `unwrap`, failed `assert_eq!`, out-of-range `Vec`
  index, explicit `panic!`) is modelled by `Option`/`Except`: fallible
  functions return `none`/`Except.error s` where `s` is the state of the
  mutated value at the moment of the panic.
* Inside the move generators every board index is bounds-guarded by the
  source itself when the board is the 8x8 grid of the data model, so there
  the reads are modelled by `cell`, which returns `Empty` out of range;
  `take_turn` and the FEN decoder, whose claims concern panics, use the
  explicit `Option`-valued accessors instead.
* Rust strings are modelled through their character lists (`String.data`);
  `str::split` on a one-character separator is `splitOnChar`.
-/

set_option maxRecDepth 40000

deriving instance DecidableEq for Except

/-- `enum GameState` of the source. -/
inductive GameState where
  | InProgress
  | Check
  | Checkmate
deriving DecidableEq

/-- `enum Colour` of the source. -/
inductive Colour where
  | White
  | Black
deriving DecidableEq

/-- `enum Piece` of the source. -/
inductive Piece where
  | King (c : Colour)
  | Queen (c : Colour)
  | Rook (c : Colour)
  | Bishop (c : Colour)
  | Knight (c : Colour)
  | Pawn (c : Colour)
  | Empty
deriving DecidableEq

/-- The board representation `Vec<Vec<Piece>>`. -/
abbrev Board := List (List Piece)

/-- `struct Game` of the source: board, side to move, the castling-rights
tuple `(White kingside, White queenside, Black kingside, Black queenside)`,
en passant square (sentinel `(8,8)`), halfmove clock, fullmove number
(`turn`), selected promotion piece and the stored game state. -/
structure Game where
  board : Board
  current_turn : Colour
  castlings : Bool × Bool × Bool × Bool
  en_passant_square : Nat × Nat
  halfmove_clock : Nat
  turn : Nat
  selected_promotion : Piece
  game_state : GameState
deriving DecidableEq

/-- `Piece::get_colour`: the owning colour, `none` for `Empty`. -/
def Piece.get_colour : Piece → Option Colour
  | .King c => some c
  | .Queen c => some c
  | .Rook c => some c
  | .Knight c => some c
  | .Bishop c => some c
  | .Pawn c => some c
  | .Empty => none

/-- Fallible board read `board[x][y]` (a `Vec` index panics out of range). -/
def cell? (b : Board) (x y : Nat) : Option Piece :=
  (b.get? x).bind fun row => row.get? y

/-- Total board read used inside the bounds-guarded move generators:
out of range it returns `Empty` (all generator reads are in range on the
8x8 boards of the data model, where this agrees with the source). -/
def cell (b : Board) (x y : Nat) : Piece :=
  (cell? b x y).getD Piece.Empty

/-- Fallible board write `board[x][y] = p`. -/
def setCell? (b : Board) (x y : Nat) (p : Piece) : Option Board :=
  match b.get? x with
  | none => none
  | some row => if y < row.length then some (b.set x (row.set y p)) else none

/-- Total board write used by the legality filter's hypothetical boards
(whose target squares the source generators keep inside the 8x8 grid). -/
def setCell (b : Board) (x y : Nat) (p : Piece) : Board :=
  (setCell? b x y p).getD b

/-- The row-major traversal `for x in 0..8 { for y in 0..8 { ... } }`. -/
def coords8 : List (Nat × Nat) :=
  (List.range 8).flatMap fun x => (List.range 8).map fun y => (x, y)

/-- Rust `str::split` on a one-character separator, on character lists:
`"a b  c"` splits to `["a", "b", "", "c"]` and `""` to `[""]`. -/
def splitOnChar (sep : Char) : List Char → List (List Char)
  | [] => [[]]
  | c :: rest =>
    match splitOnChar sep rest with
    | [] => [[]]
    | cur :: out => if c = sep then [] :: cur :: out else (c :: cur) :: out

/-- `char::to_digit(10)`. -/
def charToDigit (c : Char) : Option Nat :=
  if '0' ≤ c ∧ c ≤ '9' then some (c.toNat - 48) else none

/-- The file-letter match used by `convert_square` and the FEN decoder. -/
def charToCol (c : Char) : Option Nat :=
  match c with
  | 'a' => some 0
  | 'b' => some 1
  | 'c' => some 2
  | 'd' => some 3
  | 'e' => some 4
  | 'f' => some 5
  | 'g' => some 6
  | 'h' => some 7
  | _ => none

/-- One placement character of the FEN board field: a piece letter maps to
one piece, a digit to that many `Empty` squares, anything else panics. -/
def charPieces (c : Char) : Option (List Piece) :=
  match c with
  | 'K' => some [.King .White]
  | 'k' => some [.King .Black]
  | 'Q' => some [.Queen .White]
  | 'q' => some [.Queen .Black]
  | 'R' => some [.Rook .White]
  | 'r' => some [.Rook .Black]
  | 'B' => some [.Bishop .White]
  | 'b' => some [.Bishop .Black]
  | 'N' => some [.Knight .White]
  | 'n' => some [.Knight .Black]
  | 'P' => some [.Pawn .White]
  | 'p' => some [.Pawn .Black]
  | _ => (charToDigit c).map fun d => List.replicate d .Empty

/-- One rank of the FEN placement field. -/
def parseRankChars : List Char → Option (List Piece)
  | [] => some []
  | c :: rest =>
    match charPieces c with
    | none => none
    | some ps =>
      match parseRankChars rest with
      | none => none
      | some tail => some (ps ++ tail)

/-- The FEN placement field: split on `'/'`, decode each rank. -/
def parsePlacement (l : List Char) : Option Board :=
  (splitOnChar '/' l).foldr
    (fun rank acc =>
      match parseRankChars rank with
      | none => none
      | some row => match acc with
        | none => none
        | some rows => some (row :: rows))
    (some [])

/-- The FEN side-to-move field: first character `'w'` or `'b'`, anything
else (or an empty field) panics. -/
def fenTurnField (l : List Char) : Option Colour :=
  match l.get? 0 with
  | none => none
  | some 'w' => some .White
  | some 'b' => some .Black
  | some _ => none

/-- The FEN en passant field: `'-'` gives the sentinel `(8,8)`, otherwise a
file letter and a rank digit `y` give `(8 - y, file)`; the `usize`
subtraction `8 - y` panics for `y = 9`. -/
def fenEp (l : List Char) : Option (Nat × Nat) :=
  match l.get? 0 with
  | none => none
  | some c =>
    if c = '-' then some (8, 8)
    else match charToCol c with
      | none => none
      | some x =>
        match l.get? 1 with
        | none => none
        | some c1 =>
          match charToDigit c1 with
          | none => none
          | some y => if y ≤ 8 then some (8 - y, x) else none

/-- `str::parse::<usize>`: an optional leading `'+'` followed by at least
one decimal digit. -/
def parseNum (l : List Char) : Option Nat :=
  let l' := if l.head? = some '+' then l.tail else l
  if l' ≠ [] ∧ l'.all (fun c => decide ('0' ≤ c ∧ c ≤ '9')) then
    some (l'.foldl (fun a c => 10 * a + (c.toNat - 48)) 0)
  else none

/-- `Game::set_state_from_fen`.  The fields are assigned sequentially as
in the source, so a panic in a later field leaves the earlier assignments
in place: `Except.error s` carries the state `s` at the moment of the
panic.  The six-field `assert_eq!` and the whole placement computation
precede the first assignment. -/
def set_state_from_fen (g : Game) (fen : String) : Except Game Game :=
  let fs := splitOnChar ' ' fen.data
  if fs.length ≠ 6 then .error g
  else
    match parsePlacement (fs.getD 0 []) with
    | none => .error g
    | some b =>
      let g1 := { g with board := b }
      match fenTurnField (fs.getD 1 []) with
      | none => .error g1
      | some t =>
        let g2 := { g1 with current_turn := t }
        let cf := fs.getD 2 []
        let g3 := { g2 with
          castlings := (cf.contains 'K', cf.contains 'Q', cf.contains 'k', cf.contains 'q') }
        match fenEp (fs.getD 3 []) with
        | none => .error g3
        | some ep =>
          let g4 := { g3 with en_passant_square := ep }
          match parseNum (fs.getD 4 []) with
          | none => .error g4
          | some hm =>
            let g5 := { g4 with halfmove_clock := hm }
            match parseNum (fs.getD 5 []) with
            | none => .error g5
            | some fm => .ok { g5 with turn := fm }

/-- The struct literal that `Game::new` builds before loading the start
position. -/
def initialGame : Game :=
  { board := [[Piece.Empty]]
    current_turn := .White
    castlings := (true, true, true, true)
    en_passant_square := (0, 0)
    halfmove_clock := 0
    turn := 0
    selected_promotion := .Queen .White
    game_state := .InProgress }

/-- The FEN string of the standard starting position used by `Game::new`. -/
def startFen : String := "rnbqkbnr/pppppppp/8/8/8/8/PPPPPPPP/RNBQKBNR w KQkq - 0 1"

/-- `Game::new`: the standard starting position (the load of the constant
start FEN cannot panic, so the error branch is unreachable). -/
def gameNew : Game :=
  match set_state_from_fen initialGame startFen with
  | .ok g => g
  | .error g => g

/-- `convert_square` on a character list: file letter then `8 - digit`;
a missing character, a file outside `a`..`h`, a non-digit rank or the
underflowing `8 - 9` all panic. -/
def convChars (l : List Char) : Option (Nat × Nat) :=
  match l.get? 0 with
  | none => none
  | some c0 =>
    match charToCol c0 with
    | none => none
    | some column =>
      match l.get? 1 with
      | none => none
      | some c1 =>
        match charToDigit c1 with
        | none => none
        | some d => if d ≤ 8 then some (8 - d, column) else none

/-- `convert_square`. -/
def convert_square (square : String) : Option (Nat × Nat) :=
  convChars square.data

/-- One sliding ray: walk the precomputed squares of a direction, keep
empty squares, stop at the first occupied square keeping it only when
enemy-owned (shared body of the four loops of `get_rook_moves` and the
four `bishop_move!` expansions). -/
def Piece.ray (self : Piece) (board : Board) : List (Nat × Nat) → List (Nat × Nat)
  | [] => []
  | sq :: rest =>
    match cell board sq.1 sq.2 with
    | .Empty => sq :: self.ray board rest
    | p => if p.get_colour = self.get_colour then [] else [sq]

/-- `Piece::get_rook_moves`: the four orthogonal rays, in source order
(right, down, left, up); each `for number in 1..8` loop with its `break`
guard becomes a `takeWhile` over `[1..7]`. -/
def Piece.get_rook_moves (self : Piece) (pos : Nat × Nat) (board : Board) : List (Nat × Nat) :=
  self.ray board (((List.range' 1 7).takeWhile fun n => decide (pos.2 + n < 8)).map
    fun n => (pos.1, pos.2 + n)) ++
  self.ray board (((List.range' 1 7).takeWhile fun n => decide (pos.1 + n < 8)).map
    fun n => (pos.1 + n, pos.2)) ++
  self.ray board (((List.range' 1 7).takeWhile fun n => decide (pos.2 + 1 - n ≠ 0)).map
    fun n => (pos.1, pos.2 - n)) ++
  self.ray board (((List.range' 1 7).takeWhile fun n => decide (pos.1 + 1 - n ≠ 0)).map
    fun n => (pos.1 - n, pos.2))

/-- `Piece::get_bishop_moves`: the four diagonal rays generated by the
`bishop_move!` macro, in expansion order `(+,+) (+,-) (-,+) (-,-)`. -/
def Piece.get_bishop_moves (self : Piece) (pos : Nat × Nat) (board : Board) : List (Nat × Nat) :=
  self.ray board (((List.range' 1 7).takeWhile fun n =>
      decide (¬(pos.1 + n = 8 ∨ pos.2 + n = 8))).map fun n => (pos.1 + n, pos.2 + n)) ++
  self.ray board (((List.range' 1 7).takeWhile fun n =>
      decide (¬(pos.1 + n = 8 ∨ pos.2 + 1 - n = 0))).map fun n => (pos.1 + n, pos.2 - n)) ++
  self.ray board (((List.range' 1 7).takeWhile fun n =>
      decide (¬(pos.1 + 1 - n = 0 ∨ pos.2 + n = 8))).map fun n => (pos.1 - n, pos.2 + n)) ++
  self.ray board (((List.range' 1 7).takeWhile fun n =>
      decide (¬(pos.1 + 1 - n = 0 ∨ pos.2 + 1 - n = 0))).map fun n => (pos.1 - n, pos.2 - n))

/-- One knight candidate of the `knight_move!` macro: the `f32` range
guard (exact on these small integers) then the empty-or-enemy test. -/
def Piece.knightCand (self : Piece) (board : Board) (guard : Prop) [Decidable guard]
    (sq : Nat × Nat) : List (Nat × Nat) :=
  if guard then
    match cell board sq.1 sq.2 with
    | .Empty => [sq]
    | p => if p.get_colour ≠ self.get_colour then [sq] else []
  else []

/-- `Piece::get_knight_moves`: the eight `knight_move!` expansions in
source order. -/
def Piece.get_knight_moves (self : Piece) (pos : Nat × Nat) (board : Board) : List (Nat × Nat) :=
  self.knightCand board (1 ≤ pos.1 ∧ 2 ≤ pos.2) (pos.1 - 1, pos.2 - 2) ++
  self.knightCand board (1 ≤ pos.1 ∧ pos.2 ≤ 5) (pos.1 - 1, pos.2 + 2) ++
  self.knightCand board (pos.1 ≤ 6 ∧ 2 ≤ pos.2) (pos.1 + 1, pos.2 - 2) ++
  self.knightCand board (pos.1 ≤ 6 ∧ pos.2 ≤ 5) (pos.1 + 1, pos.2 + 2) ++
  self.knightCand board (2 ≤ pos.1 ∧ 1 ≤ pos.2) (pos.1 - 2, pos.2 - 1) ++
  self.knightCand board (2 ≤ pos.1 ∧ pos.2 ≤ 6) (pos.1 - 2, pos.2 + 1) ++
  self.knightCand board (pos.1 ≤ 5 ∧ 1 ≤ pos.2) (pos.1 + 2, pos.2 - 1) ++
  self.knightCand board (pos.1 ≤ 5 ∧ pos.2 ≤ 6) (pos.1 + 2, pos.2 + 1)

/-- `Piece::get_threatened_squares`: for a King the 3x3 neighbourhood with
only the `== 0` underflow guards (so the king's own square, and squares
with coordinate 8 when the king sits on the last rank or file, are
included); for a Pawn always the two squares at `pos.0 + 1` regardless of
colour; sliding pieces and knights reuse their move coverage. -/
def Piece.get_threatened_squares (self : Piece) (pos : Nat × Nat) (board : Board) :
    List (Nat × Nat) :=
  match self with
  | .King _ =>
      (List.range 3).flatMap fun x =>
        if pos.1 + x = 0 then []
        else
          (List.range 3).flatMap fun y =>
            if pos.2 + y = 0 then [] else [(pos.1 + x - 1, pos.2 + y - 1)]
  | .Pawn _ =>
      (if pos.2 ≠ 0 then [(pos.1 + 1, pos.2 - 1)] else []) ++
      (if pos.2 ≠ 7 then [(pos.1 + 1, pos.2 + 1)] else [])
  | .Queen _ => self.get_rook_moves pos board ++ self.get_bishop_moves pos board
  | .Rook _ => self.get_rook_moves pos board
  | .Bishop _ => self.get_bishop_moves pos board
  | .Knight _ => self.get_knight_moves pos board
  | .Empty => []

/-- `Piece::get_pawn_moves`. -/
def Piece.get_pawn_moves (self : Piece) (pos : Nat × Nat) (board : Board)
    (en_passant_square : Nat × Nat) : List (Nat × Nat) :=
  match self.get_colour with
  | some .Black =>
      (if pos.1 < 7 then
        (if pos.2 < 7 ∧ ((cell board (pos.1 + 1) (pos.2 + 1) ≠ .Empty ∧
              (cell board (pos.1 + 1) (pos.2 + 1)).get_colour ≠ self.get_colour) ∨
              en_passant_square = (pos.1 + 1, pos.2 + 1)) then
          [(pos.1 + 1, pos.2 + 1)] else []) ++
        (if 0 < pos.2 ∧ ((cell board (pos.1 + 1) (pos.2 - 1) ≠ .Empty ∧
              (cell board (pos.1 + 1) (pos.2 - 1)).get_colour ≠ self.get_colour) ∨
              en_passant_square = (pos.1 + 1, pos.2 - 1)) then
          [(pos.1 + 1, pos.2 - 1)] else []) ++
        (if cell board (pos.1 + 1) pos.2 = .Empty then [(pos.1 + 1, pos.2)] else [])
      else []) ++
      (if pos.1 = 1 ∧ cell board (pos.1 + 1) pos.2 = .Empty ∧
          cell board (pos.1 + 2) pos.2 = .Empty then [(pos.1 + 2, pos.2)] else [])
  | some .White =>
      (if 1 < pos.1 then
        (if pos.2 < 7 ∧ ((cell board (pos.1 - 1) (pos.2 + 1) ≠ .Empty ∧
              (cell board (pos.1 - 1) (pos.2 + 1)).get_colour ≠ self.get_colour) ∨
              en_passant_square = (pos.1 - 1, pos.2 + 1)) then
          [(pos.1 - 1, pos.2 + 1)] else []) ++
        (if 0 < pos.2 ∧ ((cell board (pos.1 - 1) (pos.2 - 1) ≠ .Empty ∧
              (cell board (pos.1 - 1) (pos.2 - 1)).get_colour ≠ self.get_colour) ∨
              en_passant_square = (pos.1 - 1, pos.2 - 1)) then
          [(pos.1 - 1, pos.2 - 1)] else []) ++
        (if cell board (pos.1 - 1) pos.2 = .Empty then [(pos.1 - 1, pos.2)] else [])
      else []) ++
      (if pos.1 = 6 ∧ cell board (pos.1 - 1) pos.2 = .Empty ∧
          cell board (pos.1 - 2) pos.2 = .Empty then [(pos.1 - 2, pos.2)] else [])
  | none => []

/-- The threatened-squares accumulation over every piece not owned by
`friendly`, in the row-major order of the source loops (used by
`get_king_moves` for castling safety and by the check detector). -/
def threatAll (board : Board) (friendly : Colour) : List (Nat × Nat) :=
  coords8.flatMap fun c =>
    match cell board c.1 c.2 with
    | .Empty => []
    | p =>
      if p.get_colour ≠ some friendly then p.get_threatened_squares c board else []

/-- `Piece::get_king_moves`: the 3x3 neighbourhood (with both the `== 0`
and `== 9` guards) under the empty-or-enemy rule, then the castling
destinations.  A castling destination needs the right, the emptiness of
the squares between king and rook, and the non-threat of those same
squares — the king's origin square is never tested. -/
def Piece.get_king_moves (self : Piece) (pos : Nat × Nat) (board : Board)
    (castlings : Bool × Bool × Bool × Bool) : List (Nat × Nat) :=
  let adj :=
    (List.range 3).flatMap fun x =>
      if pos.1 + x = 0 ∨ pos.1 + x = 9 then []
      else
        (List.range 3).flatMap fun y =>
          if pos.2 + y = 0 ∨ pos.2 + y = 9 then []
          else
            match cell board (pos.1 + x - 1) (pos.2 + y - 1) with
            | .Empty => [(pos.1 + x - 1, pos.2 + y - 1)]
            | p =>
              if p.get_colour ≠ self.get_colour then [(pos.1 + x - 1, pos.2 + y - 1)]
              else []
  let castle :=
    match self.get_colour with
    | some .White =>
        let threatened := threatAll board .White
        (if castlings.1 = true ∧ cell board 7 5 = .Empty ∧ cell board 7 6 = .Empty ∧
            threatened.contains (7, 5) = false ∧ threatened.contains (7, 6) = false then
          [(7, 6)] else []) ++
        (if castlings.2.1 = true ∧ cell board 7 3 = .Empty ∧ cell board 7 2 = .Empty ∧
            cell board 7 1 = .Empty ∧ threatened.contains (7, 3) = false ∧
            threatened.contains (7, 2) = false ∧ threatened.contains (7, 1) = false then
          [(7, 2)] else [])
    | some .Black =>
        let threatened := threatAll board .Black
        (if castlings.2.2.1 = true ∧ cell board 0 5 = .Empty ∧ cell board 0 6 = .Empty ∧
            threatened.contains (0, 5) = false ∧ threatened.contains (0, 6) = false then
          [(0, 6)] else []) ++
        (if castlings.2.2.2 = true ∧ cell board 0 3 = .Empty ∧ cell board 0 2 = .Empty ∧
            cell board 0 1 = .Empty ∧ threatened.contains (0, 3) = false ∧
            threatened.contains (0, 2) = false ∧ threatened.contains (0, 1) = false then
          [(0, 2)] else [])
    | none => []
  adj ++ castle

/-- `Game::get_game_state_no_recursion`: Check exactly when some square
holding the side-to-move's king is in the union of the threatened squares
of the opposing pieces. -/
def get_game_state_no_recursion (g : Game) : GameState :=
  let threatened := threatAll g.board g.current_turn
  if coords8.any (fun c =>
      decide (cell g.board c.1 c.2 = .King g.current_turn) && threatened.contains c) then
    .Check
  else .InProgress

/-- `clean_moves`: for each candidate build the hypothetical board (the
moving piece placed on the candidate square, the origin cleared) on a
`theoretical_game` built from `Game::new()` — whose side to move is
always White — and drop the candidates whose index lands in `bad_moves`.
The source tests `theoretical_game.get_game_state(false)`, which by
definition short-circuits to `get_game_state_no_recursion` (lemma
`get_game_state_false` below); the direct call breaks the definition
cycle that Rust resolves dynamically. -/
def clean_moves (pos : Nat × Nat) (board : Board) (moves : List (Nat × Nat)) :
    List (Nat × Nat) :=
  let bad := (List.range moves.length).filter fun i =>
    let m := moves.getD i (0, 0)
    let tb := setCell (setCell board m.1 m.2 (cell board pos.1 pos.2)) pos.1 pos.2 .Empty
    decide (get_game_state_no_recursion { gameNew with board := tb } = .Check)
  ((List.range moves.length).filter fun i => !(bad.contains i)).map fun i =>
    moves.getD i (0, 0)

/-- `Piece::get_valid_moves`: per-kind pseudo-legal moves filtered through
`clean_moves`. -/
def Piece.get_valid_moves (self : Piece) (pos : Nat × Nat) (board : Board)
    (en_passant_square : Nat × Nat) (castlings : Bool × Bool × Bool × Bool) :
    List (Nat × Nat) :=
  match self with
  | .Empty => []
  | .Queen _ =>
      clean_moves pos board (self.get_rook_moves pos board ++ self.get_bishop_moves pos board)
  | .Rook _ => clean_moves pos board (self.get_rook_moves pos board)
  | .Bishop _ => clean_moves pos board (self.get_bishop_moves pos board)
  | .Knight _ => clean_moves pos board (self.get_knight_moves pos board)
  | .Pawn _ => clean_moves pos board (self.get_pawn_moves pos board en_passant_square)
  | .King _ => clean_moves pos board (self.get_king_moves pos board castlings)

/-- The legal-move accumulation over every piece of the side to move
(the `moves` loop of `Game::get_game_state`). -/
def allOwnMoves (g : Game) : List (Nat × Nat) :=
  coords8.flatMap fun c =>
    match cell g.board c.1 c.2 with
    | .Empty => []
    | p =>
      if p.get_colour = some g.current_turn then
        p.get_valid_moves c g.board g.en_passant_square g.castlings
      else []

/-- `Game::get_game_state`: the check-only pass, upgraded to Checkmate at
end of turn when the side to move has no legal move. -/
def get_game_state (g : Game) (eot : Bool) : GameState :=
  let state := get_game_state_no_recursion g
  if state = .Check ∧ eot = true then
    if allOwnMoves g = [] then .Checkmate else .Check
  else state

/-- Extract the success value of a decode, keeping the panic state
otherwise (used only to build concrete test positions). -/
def decodeInto (g : Game) (fen : String) : Game :=
  match set_state_from_fen g fen with
  | .ok h => h
  | .error h => h

/-- `Game::take_turn`, side-effect block: keyed on the moving piece, with
the castling rook relocation and rights clearing for kings, and the en
passant capture removal plus halfmove reset for pawns (the `panic!` arm
of the en passant match is the error case). -/
def takeTurnSideEffects (g : Game) (toSq : Nat × Nat) (curPiece : Piece) :
    Except Game Game :=
  match curPiece with
  | .King .Black =>
      let gA :=
        if toSq = (0, 6) ∧ g.castlings.2.2.1 = true then
          { g with board := setCell (setCell g.board 0 7 .Empty) 0 5 (.Rook .Black) }
        else g
      let gB :=
        if toSq = (0, 2) ∧ gA.castlings.2.2.2 = true then
          { gA with board := setCell (setCell gA.board 0 0 .Empty) 0 3 (.Rook .Black) }
        else gA
      .ok { gB with castlings := (gB.castlings.1, gB.castlings.2.1, false, false) }
  | .King .White =>
      let gA :=
        if toSq = (7, 6) ∧ g.castlings.1 = true then
          { g with board := setCell (setCell g.board 7 7 .Empty) 7 5 (.Rook .White) }
        else g
      let gB :=
        if toSq = (7, 2) ∧ gA.castlings.2.1 = true then
          { gA with board := setCell (setCell gA.board 7 0 .Empty) 7 3 (.Rook .White) }
        else gA
      .ok { gB with castlings := (false, false, gB.castlings.2.2.1, gB.castlings.2.2.2) }
  | .Pawn _ =>
      if toSq = g.en_passant_square then
        match g.en_passant_square.1 with
        | 5 =>
            .ok { g with
              board := setCell g.board (g.en_passant_square.1 - 1) g.en_passant_square.2 .Empty
              halfmove_clock := 0 }
        | 2 =>
            .ok { g with
              board := setCell g.board (g.en_passant_square.1 + 1) g.en_passant_square.2 .Empty
              halfmove_clock := 0 }
        | _ => .error g
      else .ok { g with halfmove_clock := 0 }
  | _ => .ok g

/-- `Game::take_turn`, en passant recomputation: the square passed over
after a two-rank pawn advance, the sentinel otherwise.  The source
compares `to.0 == from.0 - 2` for a white pawn, a `usize` subtraction
that panics when the pawn stands on rank index 0 or 1. -/
def takeTurnEp (g : Game) (fromSq toSq : Nat × Nat) : Except Game Game :=
  match cell? g.board fromSq.1 fromSq.2 with
  | none => .error g
  | some p =>
    if p = .Pawn .Black ∧ toSq.1 = fromSq.1 + 2 then
      .ok { g with en_passant_square := (fromSq.1 + 1, fromSq.2) }
    else if p = .Pawn .White then
      if fromSq.1 < 2 then .error g
      else if toSq.1 = fromSq.1 - 2 then
        .ok { g with en_passant_square := (fromSq.1 - 1, fromSq.2) }
      else .ok { g with en_passant_square := (8, 8) }
    else .ok { g with en_passant_square := (8, 8) }

/-- `Game::take_turn`, castling-rights clearing keyed on a square
matching a rook home corner (applied to both origin and destination). -/
def castleClearSquare (cs : Bool × Bool × Bool × Bool) (sq : Nat × Nat) :
    Bool × Bool × Bool × Bool :=
  match sq with
  | (0, 0) => (cs.1, cs.2.1, cs.2.2.1, false)
  | (0, 7) => (cs.1, cs.2.1, false, cs.2.2.2)
  | (7, 0) => (cs.1, false, cs.2.2.1, cs.2.2.2)
  | (7, 7) => (false, cs.2.1, cs.2.2.1, cs.2.2.2)
  | _ => cs

/-- `Game::take_turn`, capture test: reading the destination square (a
panic when it is out of range) and resetting the halfmove clock when it
is occupied. -/
def takeTurnCapture (g : Game) (toSq : Nat × Nat) : Except Game Game :=
  match cell? g.board toSq.1 toSq.2 with
  | none => .error g
  | some p => .ok (if p ≠ .Empty then { g with halfmove_clock := 0 } else g)

/-- `Game::take_turn`, relocation: destination takes the origin's piece,
origin becomes empty. -/
def takeTurnRelocate (g : Game) (fromSq toSq : Nat × Nat) : Except Game Game :=
  match cell? g.board fromSq.1 fromSq.2 with
  | none => .error g
  | some p =>
    match setCell? g.board toSq.1 toSq.2 p with
    | none => .error g
    | some b1 =>
      match setCell? b1 fromSq.1 fromSq.2 .Empty with
      | none => .error g
      | some b2 => .ok { g with board := b2 }

/-- `Game::take_turn`, promotion: a pawn standing on the destination at
the farthest rank for its colour is replaced by the stored
`selected_promotion` piece (the white test, then the black test on the
re-read square). -/
def takeTurnPromote (g : Game) (toSq : Nat × Nat) : Except Game Game :=
  match cell? g.board toSq.1 toSq.2 with
  | none => .error g
  | some p =>
    let gA :=
      if p = .Pawn .White ∧ toSq.1 = 0 then
        { g with board := setCell g.board toSq.1 toSq.2 g.selected_promotion }
      else g
    match cell? gA.board toSq.1 toSq.2 with
    | none => .error gA
    | some p2 =>
      if p2 = .Pawn .Black ∧ toSq.1 = 7 then
        .ok { gA with board := setCell gA.board toSq.1 toSq.2 gA.selected_promotion }
      else .ok gA

/-- `Game::take_turn`, side-to-move toggle with fullmove increment after
a Black move. -/
def toggleTurn (g : Game) : Game :=
  if g.current_turn = .Black then
    { g with turn := g.turn + 1, current_turn := .White }
  else { g with current_turn := .Black }

/-- `Game::take_turn`, re-colouring of the selected promotion piece to
the new side to move (the match has a `panic!` arm for non-promotion
kinds). -/
def recolourPromotion (g : Game) : Except Game Game :=
  match g.selected_promotion with
  | .Bishop _ => .ok { g with selected_promotion := .Bishop g.current_turn }
  | .Rook _ => .ok { g with selected_promotion := .Rook g.current_turn }
  | .Knight _ => .ok { g with selected_promotion := .Knight g.current_turn }
  | .Queen _ => .ok { g with selected_promotion := .Queen g.current_turn }
  | _ => .error g

/-- `Game::take_turn`, the unconditional tail that runs once the origin
is owned by the side to move: the side-effect block (only when the
destination is in the valid-move set), the en passant recomputation, the
two castling-rights clears (composed into one update of the rights
tuple), the capture clock, the relocation, the promotion, the turn
toggle, the promotion re-colouring, and the game-state store. -/
def takeTurnApply (g1 : Game) (fromSq toSq : Nat × Nat) (pFrom : Piece) :
    Except Game (Game × Option GameState) :=
  let valids := pFrom.get_valid_moves fromSq g1.board g1.en_passant_square g1.castlings
  match (if valids.contains toSq then takeTurnSideEffects g1 toSq pFrom else .ok g1) with
  | .error e => .error e
  | .ok g2 =>
    match takeTurnEp g2 fromSq toSq with
    | .error e => .error e
    | .ok g3 =>
      let g5 := { g3 with
        castlings := castleClearSquare (castleClearSquare g3.castlings fromSq) toSq }
      match takeTurnCapture g5 toSq with
      | .error e => .error e
      | .ok g6 =>
        match takeTurnRelocate g6 fromSq toSq with
        | .error e => .error e
        | .ok g7 =>
          match takeTurnPromote g7 toSq with
          | .error e => .error e
          | .ok g8 =>
            match recolourPromotion (toggleTurn g8) with
            | .error e => .error e
            | .ok g10 =>
              let st := get_game_state g10 true
              .ok ({ g10 with game_state := st }, some st)

/-- `Game::take_turn` after square conversion.  The halfmove clock is
incremented before the ownership test; an origin that is empty or not
owned by the side to move returns the rejection `none` with that
increment already applied, and otherwise the whole unconditional tail
runs. -/
def take_turn_squares (g0 : Game) (fromSq toSq : Nat × Nat) :
    Except Game (Game × Option GameState) :=
  let g1 := { g0 with halfmove_clock := g0.halfmove_clock + 1 }
  match cell? g1.board fromSq.1 fromSq.2 with
  | none => .error g1
  | some pFrom =>
    if pFrom = .Empty then .ok (g1, none)
    else
      match pFrom.get_colour with
      | none => .error g1
      | some c =>
        if c ≠ g1.current_turn then .ok (g1, none)
        else takeTurnApply g1 fromSq toSq pFrom

/-- `Game::take_turn`: split the input on the space, convert both
squares (each failure a panic), then run the move. -/
def take_turn (g : Game) (mov : String) : Except Game (Game × Option GameState) :=
  let movs := splitOnChar ' ' mov.data
  match movs.get? 0 with
  | none => .error g
  | some m0 =>
    match convChars m0 with
    | none => .error g
    | some fromSq =>
      match movs.get? 1 with
      | none => .error g
      | some m1 =>
        match convChars m1 with
        | none => .error g
        | some toSq => take_turn_squares g fromSq toSq

/-- `char::from_digit(d, 10)` for `d ≤ 9`. -/
def digitChar (d : Nat) : Char := Char.ofNat (48 + d)

/-- The piece letter emitted by `get_fen`, `none` for `Empty`. -/
def pieceChar : Piece → Option Char
  | .King .White => some 'K'
  | .King .Black => some 'k'
  | .Queen .White => some 'Q'
  | .Queen .Black => some 'q'
  | .Bishop .White => some 'B'
  | .Bishop .Black => some 'b'
  | .Rook .White => some 'R'
  | .Rook .Black => some 'r'
  | .Knight .White => some 'N'
  | .Knight .Black => some 'n'
  | .Pawn .White => some 'P'
  | .Pawn .Black => some 'p'
  | .Empty => none

/-- One rank of the `get_fen` placement output: the `empties` run-length
accumulator is flushed as a digit before each piece letter and at the end
of the rank. -/
def rankToChars : List Piece → Nat → List Char
  | [], empties => if 0 < empties then [digitChar empties] else []
  | p :: rest, empties =>
    match pieceChar p with
    | none => rankToChars rest (empties + 1)
    | some ch =>
      (if 0 < empties then [digitChar empties] else []) ++ ch :: rankToChars rest 0

/-- One rank of the `get_fen` placement output, read cell by cell as in
the source's `y` loop. -/
def rowChars (g : Game) (x : Nat) : List Char :=
  rankToChars ((List.range 8).map fun y => cell g.board x y) 0

/-- The placement field of `get_fen`: the eight ranks, a `'/'` after
every rank but the last. -/
def fenPlacementChars (g : Game) : List Char :=
  (List.range 8).flatMap fun x => rowChars g x ++ (if x ≠ 7 then ['/'] else [])

/-- Decimal printing with explicit fuel (any fuel above the value is
enough; `natChars` always supplies one). -/
def natCharsAux : Nat → Nat → List Char
  | 0, _ => []
  | fuel + 1, n =>
    if n < 10 then [digitChar n]
    else natCharsAux fuel (n / 10) ++ [digitChar (n % 10)]

/-- `usize::to_string`: decimal digits, most significant first. -/
def natChars (n : Nat) : List Char := natCharsAux (n + 1) n

/-- The en passant field of `get_fen`: a file letter keyed on the file
component `y` and the rank digit `8 - x`, or `'-'` for any file outside
the board (in particular the sentinel). -/
def epChars (x y : Nat) : List Char :=
  match y with
  | 0 => ['a', digitChar (8 - x)]
  | 1 => ['b', digitChar (8 - x)]
  | 2 => ['c', digitChar (8 - x)]
  | 3 => ['d', digitChar (8 - x)]
  | 4 => ['e', digitChar (8 - x)]
  | 5 => ['f', digitChar (8 - x)]
  | 6 => ['g', digitChar (8 - x)]
  | 7 => ['h', digitChar (8 - x)]
  | _ => ['-']

/-- The castling field of `get_fen`: the granted letters in `KQkq`
order, with nothing emitted when none is granted. -/
def castleChars (cs : Bool × Bool × Bool × Bool) : List Char :=
  (if cs.1 then ['K'] else []) ++ (if cs.2.1 then ['Q'] else []) ++
  (if cs.2.2.1 then ['k'] else []) ++ (if cs.2.2.2 then ['q'] else [])

/-- The character stream of `Game::get_fen`, following the source's
pushes: placement, `" w "`/`" b "`, the castling letters, a space, the
en passant field, then the two counters. -/
def fenChars (g : Game) : List Char :=
  fenPlacementChars g ++
  (if g.current_turn = .White then [' ', 'w', ' '] else [' ', 'b', ' ']) ++
  castleChars g.castlings ++
  [' '] ++ epChars g.en_passant_square.1 g.en_passant_square.2 ++
  [' '] ++ natChars g.halfmove_clock ++
  [' '] ++ natChars g.turn

/-- `Game::get_fen`. -/
def get_fen (g : Game) : String := String.mk (fenChars g)

/-- The empty 8x8 board. -/
def emptyBoard : Board := List.replicate 8 (List.replicate 8 Piece.Empty)

/-- Apply one move, keeping the state (used to build concrete reachable
positions; the rejected and panic branches are never taken on the
concrete inputs below). -/
def playMove (g : Game) (mov : String) : Game :=
  match take_turn g mov with
  | .ok (h, _) => h
  | .error h => h

/-- Whether the turn executor accepted a move (returned a game state). -/
def accepted (g : Game) (mov : String) : Bool :=
  match take_turn g mov with
  | .ok (_, some _) => true
  | _ => false

/-- Black king a8, White rook a1, White king h1: a position where a Black
king move along the a-file stays in the White rook's line. -/
def boardC2 : Board :=
  setCell (setCell (setCell emptyBoard 0 0 (.King .Black)) 7 0 (.Rook .White))
    7 7 (.King .White)

/-- White king e1 in check from the Black rook e8, White rook h1, Black
king a8, White kingside right granted. -/
def boardC3 : Board :=
  setCell (setCell (setCell (setCell emptyBoard 7 4 (.King .White)) 7 7 (.Rook .White))
    0 4 (.Rook .Black)) 0 0 (.King .Black)

/-- The position of the checkmate scenario: White king a1, Black queen
b2, Black bishop c3, White to move, no castling rights, no en passant. -/
def gameC8 : Game := decodeInto gameNew "8/8/8/8/8/2b5/1q6/K7 w  - 0 0"

/-- A position with Black to move and a Black pawn one step from
promotion, freshly loaded from FEN (so the selected promotion piece kept
its default White colour). -/
def gameC7 : Game := decodeInto gameNew "8/8/8/8/8/8/1p6/K6k b - - 0 1"

/-- The game after 1. e3 e6 2. Ke2 Ke7 from the standard start: all four
castling rights are gone. -/
def gameC5 : Game :=
  playMove (playMove (playMove (playMove gameNew "e2 e3") "e7 e6") "e1 e2") "e8 e7"

/-- `Game::select_promotion`: sets the promotion piece for the side to
move from a letter r/b/n/q (case-insensitive); anything else panics. -/
def select_promotion (g : Game) (piece : Char) : Except Game Game :=
  match piece.toLower with
  | 'r' => .ok { g with selected_promotion := .Rook g.current_turn }
  | 'b' => .ok { g with selected_promotion := .Bishop g.current_turn }
  | 'n' => .ok { g with selected_promotion := .Knight g.current_turn }
  | 'q' => .ok { g with selected_promotion := .Queen g.current_turn }
  | _ => .error g

/-- A position with Black to move, a Black pawn on b2, and the selected
promotion re-chosen through `select_promotion` after the load, so its
colour matches the side to move (Black). -/
def gameC7w : Game :=
  match select_promotion (decodeInto gameNew "7k/8/8/8/8/8/1p6/7K b - - 0 1") 'q' with
  | .ok h => h
  | .error h => h

/-- The game after the promotion move b2-b1 on `gameC7w`. -/
def gameC7wAfter : Game :=
  match take_turn_squares gameC7w (6, 1) (7, 1) with
  | .ok (h, _) => h
  | .error h => h

/-- Well-formed board of the data model: exactly 8 ranks of 8 cells. -/
def wfBoard (b : Board) : Prop :=
  b.length = 8 ∧ ∀ r ∈ b, r.length = 8

/-- The en passant values the turn executor can store: the sentinel, or a
square with rank at most 8 and file at most 7 (every such value encodes
to a field the decoder maps back to it). -/
def epOK (e : Nat × Nat) : Prop :=
  e = (8, 8) ∨ (e.1 ≤ 8 ∧ e.2 ≤ 7)

/-- Games reachable from the standard start by accepted moves. -/
inductive Reachable : Game → Prop where
  | start : Reachable gameNew
  | step {g g' : Game} {mov : String} {st : GameState} :
      Reachable g → take_turn g mov = .ok (g', some st) → Reachable g'

/-- The well-formed file letters. -/
def fileChars : List Char := ['a', 'b', 'c', 'd', 'e', 'f', 'g', 'h']

/-- The well-formed rank digits. -/
def rankDigitChars : List Char := ['1', '2', '3', '4', '5', '6', '7', '8']

example : get_fen gameNew = startFen := by decide

example : convert_square "a4" = some (4, 0) := by decide
example : convert_square "c6" = some (2, 2) := by decide
example : convert_square "a0" = some (8, 0) := by decide
example : convert_square "a9" = none := by decide
example : convert_square "i4" = none := by decide
example : gameNew.castlings = (true, true, true, true) := by decide
example : gameNew.en_passant_square = (8, 8) := by decide
example : gameNew.turn = 1 := by decide
example : cell gameNew.board 7 4 = .King .White := by decide

example :
    (Piece.Bishop .White).get_valid_moves (0, 1)
      (decodeInto gameNew "1B6/8/8/8/8/8/8/8 w  - 0 0").board (8, 8)
      (false, false, false, false) =
    [(1, 2), (2, 3), (3, 4), (4, 5), (5, 6), (6, 7), (1, 0)] := by decide

example :
    (Piece.Pawn .White).get_valid_moves (3, 2)
      (decodeInto gameNew "8/8/3p4/1pP5/8/8/8/8 w  b6 0 0").board (2, 1)
      (false, false, false, false) =
    [(2, 3), (2, 1), (2, 2)] := by decide

example :
    (Piece.Pawn .White).get_valid_moves (6, 4) gameNew.board gameNew.en_passant_square
      gameNew.castlings = [(5, 4), (4, 4)] := by decide

/-- With `eot = false` the game-state query is exactly the check-only
pass: this is the form `clean_moves` relies on. -/
theorem get_game_state_false (g : Game) :
    get_game_state g false = get_game_state_no_recursion g := by
  unfold get_game_state
  simp

/-- Claim C1 (code_bug evaluation): the turn executor does not satisfy the
claimed rejection semantics.  On the standard start, the request "a3 a4"
(empty origin) is rejected but the halfmove clock has already been
incremented, and the request "a2 a5" (destination outside the pawn's
legal set {a3, a4}) is not rejected at all: the pawn is relocated from a2
to a5 and a game state is returned. -/
theorem claim_C1_rejection_mutates :
    take_turn gameNew "a3 a4" = .ok ({ gameNew with halfmove_clock := 1 }, none) ∧
    (take_turn gameNew "a2 a5").toOption.map
        (fun p => (cell p.1.board 3 0, cell p.1.board 6 0, p.2)) =
      some (.Pawn .White, .Empty, some .InProgress) := by decide

/-- Claim C2 (code_bug evaluation): the legal-move generator lets a Black
king step from a8 to a7 into the White rook's file (the position Black
king a8, White rook a1, White king h1): the destination (1,0) is
produced, yet on the resulting hypothetical board the mover's own king
stands attacked (the check-only detector run for Black reports Check). -/
theorem claim_C2_clean_moves_wrong_king :
    (1, 0) ∈ (Piece.King .Black).get_valid_moves (0, 0) boardC2 (8, 8)
        (false, false, false, false) ∧
    get_game_state_no_recursion
      { board := setCell (setCell boardC2 1 0 (.King .Black)) 0 0 .Empty
        current_turn := .Black
        castlings := (false, false, false, false)
        en_passant_square := (8, 8)
        halfmove_clock := 0
        turn := 1
        selected_promotion := .Queen .White
        game_state := .InProgress } = .Check := by decide

/-- Claim C3 (code_bug evaluation): with the White king on e1 attacked by
the Black rook on e8 (e1 is in the opponent's threatened-squares set),
the king move generator still includes the kingside castling destination
g1 — the origin square is never tested. -/
theorem claim_C3_castle_out_of_check :
    (7, 6) ∈ (Piece.King .White).get_king_moves (7, 4) boardC3
        (true, false, false, false) ∧
    (7, 4) ∈ threatAll boardC3 .White := by decide

/-- Claim C4 (code_bug evaluation): the threatened-squares generator gives
a White pawn on e4 the squares behind it ((5,3) and (5,5), toward higher
rank indices) instead of its forward diagonals, gives a King its own
square, and gives a King on h1 the off-board square (8,8). -/
theorem claim_C4_threat_directions :
    (Piece.Pawn .White).get_threatened_squares (4, 4) emptyBoard = [(5, 3), (5, 5)] ∧
    (4, 4) ∈ (Piece.King .White).get_threatened_squares (4, 4) emptyBoard ∧
    (8, 8) ∈ (Piece.King .White).get_threatened_squares (7, 7) emptyBoard := by decide

/-- Claim C8 (confirmed): on the position with the White king on a1, the
Black queen on b2 and the Black bishop on c3, White to move, the
end-of-turn evaluation returns Checkmate, the check-only pass reports
Check, and the legal-move enumeration over all White pieces is empty. -/
theorem claim_C8_checkmate :
    get_game_state gameC8 true = .Checkmate ∧
    get_game_state_no_recursion gameC8 = .Check ∧
    allOwnMoves gameC8 = [] := by decide

/-- Claim C10 counterexample: the input "a3 a0" violates the well-formed
shape (rank digit 0), yet on the standard start the turn executor does
not panic — it returns the recoverable rejection (with the halfmove
clock incremented), because "a0" converts to the out-of-range square
(8,0) without panicking and the empty origin a3 is rejected first. -/
theorem claim_C10_counterexample :
    take_turn gameNew "a3 a0" = .ok ({ gameNew with halfmove_clock := 1 }, none) := by
  decide

/-- Claim C5 counterexample: the game after 1. e3 e6 2. Ke2 Ke7 is reached
from the standard start by four accepted moves and has no castling right,
yet the encoder emits the empty string — not `'-'` — as the castling
field (the third space-separated field of its FEN output is empty). -/
theorem claim_C5_counterexample :
    accepted gameNew "e2 e3" = true ∧
    accepted (playMove gameNew "e2 e3") "e7 e6" = true ∧
    accepted (playMove (playMove gameNew "e2 e3") "e7 e6") "e1 e2" = true ∧
    accepted (playMove (playMove (playMove gameNew "e2 e3") "e7 e6") "e1 e2") "e8 e7" = true ∧
    gameC5.castlings = (false, false, false, false) ∧
    (splitOnChar ' ' (get_fen gameC5).data).getD 2 ['-'] = [] := by decide

/-- Claim C6 counterexample: decoding the malformed FEN
"8/8/8/8/8/8/8/8 x KQkq - 0 1" (unrecognized side-to-move field) into the
standard game fails fatally only after the board has already been
replaced: the state at the panic differs from the original game. -/
theorem claim_C6_counterexample :
    set_state_from_fen gameNew "8/8/8/8/8/8/8/8 x KQkq - 0 1" =
      .error { gameNew with board := emptyBoard } ∧
    ({ gameNew with board := emptyBoard } : Game) ≠ gameNew := by decide

/-- Claim C7 counterexample: on a Game freshly loaded from a FEN with
Black to move (Black pawn b2, White king a1, Black king h1), the accepted
move "b2 b1" promotes the Black pawn to the stored selected promotion
piece, a White queen — the promoted piece's colour does not match the
moving side. -/
theorem claim_C7_counterexample :
    gameC7.current_turn = .Black ∧
    gameC7.selected_promotion = .Queen .White ∧
    (take_turn gameC7 "b2 b1").toOption.map (fun p => (cell p.1.board 7 1, p.2.isSome)) =
      some ((.Queen .White : Piece), true) := by decide

/-- Claim C9 counterexample: loading the same well-formed FEN into two
Games that differ only in their selected promotion piece yields different
results — the selected promotion survives the reload, so the decoded Game
is not determined by the FEN string alone. -/
theorem claim_C9_counterexample :
    (set_state_from_fen gameNew startFen).toOption.map (fun h => h.selected_promotion) =
      some (.Queen .White) ∧
    (set_state_from_fen { gameNew with selected_promotion := .Knight .White }
        startFen).toOption.map (fun h => h.selected_promotion) =
      some (.Knight .White) := by decide

theorem cellq_eq_some {b : Board} {x y : Nat} {p : Piece} :
    cell? b x y = some p ↔ ∃ row, b[x]? = some row ∧ row[y]? = some p := by
  cases hx : b[x]? with
  | none => simp [cell?, List.get?_eq_getElem?, hx]
  | some row => simp [cell?, List.get?_eq_getElem?, hx]

theorem setCellq_eq_some {b b' : Board} {x y : Nat} {p : Piece} :
    setCell? b x y p = some b' ↔
      ∃ row, b[x]? = some row ∧ y < row.length ∧ b' = b.set x (row.set y p) := by
  cases hx : b[x]? with
  | none => simp [setCell?, List.get?_eq_getElem?, hx]
  | some row =>
    simp only [setCell?, List.get?_eq_getElem?, hx]
    constructor
    · intro h
      split at h
      · exact ⟨row, rfl, by assumption, (Option.some.inj h).symm⟩
      · exact absurd h (by simp)
    · rintro ⟨row', hrow', hy, rfl⟩
      cases Option.some.inj hrow'
      simp [hy]

theorem cellq_lt {b : Board} {x y : Nat} {p : Piece} (hwf : wfBoard b)
    (h : cell? b x y = some p) : x < 8 ∧ y < 8 := by
  obtain ⟨row, hx, hy⟩ := cellq_eq_some.mp h
  obtain ⟨hx', _⟩ := List.getElem?_eq_some.mp hx
  obtain ⟨hy', _⟩ := List.getElem?_eq_some.mp hy
  have hr := hwf.2 row (List.getElem?_mem hx)
  have hb := hwf.1
  omega

theorem setCellq_wf {b b' : Board} {x y : Nat} {p : Piece}
    (h : setCell? b x y p = some b') (hwf : wfBoard b) : wfBoard b' := by
  obtain ⟨row, hx, hy, rfl⟩ := setCellq_eq_some.mp h
  constructor
  · rw [List.length_set]; exact hwf.1
  · intro r hr
    rcases List.mem_or_eq_of_mem_set hr with hr' | rfl
    · exact hwf.2 r hr'
    · rw [List.length_set]; exact hwf.2 row (List.getElem?_mem hx)

theorem setCell_wf {b : Board} {x y : Nat} {p : Piece} (hwf : wfBoard b) :
    wfBoard (setCell b x y p) := by
  unfold setCell
  cases h : setCell? b x y p with
  | none => simpa using hwf
  | some b' => simpa using setCellq_wf h hwf

theorem setCellq_of_cellq {b : Board} {x y : Nat} {q : Piece} (p : Piece)
    (h : cell? b x y = some q) : ∃ b', setCell? b x y p = some b' := by
  obtain ⟨row, hx, hy⟩ := cellq_eq_some.mp h
  obtain ⟨hy', _⟩ := List.getElem?_eq_some.mp hy
  exact ⟨b.set x (row.set y p), setCellq_eq_some.mpr ⟨row, hx, hy', rfl⟩⟩

theorem cellq_setCellq_same {b b' : Board} {x y : Nat} {p : Piece}
    (h : setCell? b x y p = some b') : cell? b' x y = some p := by
  obtain ⟨row, hx, hy, rfl⟩ := setCellq_eq_some.mp h
  obtain ⟨hx', _⟩ := List.getElem?_eq_some.mp hx
  refine cellq_eq_some.mpr ⟨row.set y p, ?_, ?_⟩
  · exact List.getElem?_set_eq_of_lt _ hx'
  · exact List.getElem?_set_eq_of_lt _ hy

theorem cellq_setCellq_other {b b' : Board} {x y x' y' : Nat} {p : Piece}
    (h : setCell? b x y p = some b') (hne : x ≠ x' ∨ y ≠ y') :
    cell? b' x' y' = cell? b x' y' := by
  obtain ⟨row, hx, hy, rfl⟩ := setCellq_eq_some.mp h
  simp only [cell?, List.get?_eq_getElem?]
  rcases hne with hne | hne
  · rw [List.getElem?_set_ne hne]
  · rcases eq_or_ne x x' with rfl | hxx
    · obtain ⟨hx', _⟩ := List.getElem?_eq_some.mp hx
      rw [List.getElem?_set_eq_of_lt _ hx', hx]
      simp only [Option.some_bind]
      rw [List.getElem?_set_ne hne]
    · rw [List.getElem?_set_ne hxx]

theorem takeTurnSideEffects_inv {g g' : Game} {toSq : Nat × Nat} {p : Piece}
    (h : takeTurnSideEffects g toSq p = .ok g') :
    g'.current_turn = g.current_turn ∧ g'.en_passant_square = g.en_passant_square ∧
    g'.selected_promotion = g.selected_promotion ∧ g'.turn = g.turn ∧
    (wfBoard g.board → wfBoard g'.board) := by
  cases p with
  | King c =>
    cases c <;>
    · simp only [takeTurnSideEffects] at h
      cases Except.ok.inj h
      split_ifs <;>
        refine ⟨rfl, rfl, rfl, rfl, fun hw => ?_⟩ <;>
        repeat (first | exact hw | apply setCell_wf)
  | Pawn c =>
    simp only [takeTurnSideEffects] at h
    split at h
    · split at h <;>
        [skip; skip; exact absurd h (by simp)] <;>
      · cases Except.ok.inj h
        refine ⟨rfl, rfl, rfl, rfl, fun hw => ?_⟩
        repeat (first | exact hw | apply setCell_wf)
    · cases Except.ok.inj h
      exact ⟨rfl, rfl, rfl, rfl, fun hw => hw⟩
  | Queen c => cases Except.ok.inj h; exact ⟨rfl, rfl, rfl, rfl, fun hw => hw⟩
  | Rook c => cases Except.ok.inj h; exact ⟨rfl, rfl, rfl, rfl, fun hw => hw⟩
  | Bishop c => cases Except.ok.inj h; exact ⟨rfl, rfl, rfl, rfl, fun hw => hw⟩
  | Knight c => cases Except.ok.inj h; exact ⟨rfl, rfl, rfl, rfl, fun hw => hw⟩
  | Empty => cases Except.ok.inj h; exact ⟨rfl, rfl, rfl, rfl, fun hw => hw⟩

theorem takeTurnEp_inv {g g' : Game} {fromSq toSq : Nat × Nat}
    (h : takeTurnEp g fromSq toSq = .ok g') :
    g'.board = g.board ∧ g'.current_turn = g.current_turn ∧
    g'.selected_promotion = g.selected_promotion ∧ g'.turn = g.turn ∧
    g'.castlings = g.castlings ∧ g'.halfmove_clock = g.halfmove_clock ∧
    (g'.en_passant_square = (8, 8) ∨
      (g'.en_passant_square.1 ≤ fromSq.1 + 1 ∧ g'.en_passant_square.2 = fromSq.2)) := by
  unfold takeTurnEp at h
  cases hc : cell? g.board fromSq.1 fromSq.2 with
  | none => simp only [hc] at h; exact absurd h (by simp)
  | some p =>
    simp only [hc] at h
    split at h
    · cases Except.ok.inj h
      exact ⟨rfl, rfl, rfl, rfl, rfl, rfl,
        Or.inr ⟨by show fromSq.1 + 1 ≤ fromSq.1 + 1; omega, rfl⟩⟩
    · split at h
      · split at h
        · exact absurd h (by simp)
        · split at h
          · cases Except.ok.inj h
            exact ⟨rfl, rfl, rfl, rfl, rfl, rfl,
              Or.inr ⟨by show fromSq.1 - 1 ≤ fromSq.1 + 1; omega, rfl⟩⟩
          · cases Except.ok.inj h
            exact ⟨rfl, rfl, rfl, rfl, rfl, rfl, Or.inl rfl⟩
      · cases Except.ok.inj h
        exact ⟨rfl, rfl, rfl, rfl, rfl, rfl, Or.inl rfl⟩

theorem takeTurnCapture_inv {g g' : Game} {toSq : Nat × Nat}
    (h : takeTurnCapture g toSq = .ok g') :
    g'.board = g.board ∧ g'.current_turn = g.current_turn ∧
    g'.selected_promotion = g.selected_promotion ∧ g'.turn = g.turn ∧
    g'.castlings = g.castlings ∧ g'.en_passant_square = g.en_passant_square := by
  unfold takeTurnCapture at h
  cases hc : cell? g.board toSq.1 toSq.2 with
  | none => simp only [hc] at h; exact absurd h (by simp)
  | some p =>
    simp only [hc] at h
    cases Except.ok.inj h
    split <;> exact ⟨rfl, rfl, rfl, rfl, rfl, rfl⟩

theorem takeTurnRelocate_inv {g g' : Game} {fromSq toSq : Nat × Nat}
    (h : takeTurnRelocate g fromSq toSq = .ok g') :
    (wfBoard g.board → wfBoard g'.board) ∧ g'.current_turn = g.current_turn ∧
    g'.selected_promotion = g.selected_promotion ∧ g'.turn = g.turn ∧
    g'.castlings = g.castlings ∧ g'.en_passant_square = g.en_passant_square ∧
    g'.halfmove_clock = g.halfmove_clock := by
  unfold takeTurnRelocate at h
  cases hc : cell? g.board fromSq.1 fromSq.2 with
  | none => simp only [hc] at h; exact absurd h (by simp)
  | some p =>
    simp only [hc] at h
    cases hs1 : setCell? g.board toSq.1 toSq.2 p with
    | none => simp only [hs1] at h; exact absurd h (by simp)
    | some b1 =>
      simp only [hs1] at h
      cases hs2 : setCell? b1 fromSq.1 fromSq.2 .Empty with
      | none => simp only [hs2] at h; exact absurd h (by simp)
      | some b2 =>
        simp only [hs2] at h
        cases Except.ok.inj h
        exact ⟨fun hw => setCellq_wf hs2 (setCellq_wf hs1 hw), rfl, rfl, rfl, rfl, rfl, rfl⟩

theorem takeTurnPromote_inv {g g' : Game} {toSq : Nat × Nat}
    (h : takeTurnPromote g toSq = .ok g') :
    (wfBoard g.board → wfBoard g'.board) ∧ g'.current_turn = g.current_turn ∧
    g'.selected_promotion = g.selected_promotion ∧ g'.turn = g.turn ∧
    g'.castlings = g.castlings ∧ g'.en_passant_square = g.en_passant_square ∧
    g'.halfmove_clock = g.halfmove_clock := by
  unfold takeTurnPromote at h
  cases hc : cell? g.board toSq.1 toSq.2 with
  | none => simp only [hc] at h; exact absurd h (by simp)
  | some p =>
    simp only [hc] at h
    repeat' split at h
    all_goals
      first
      | exact Except.noConfusion h
      | (cases Except.ok.inj h
         refine ⟨fun hw => ?_, rfl, rfl, rfl, rfl, rfl, rfl⟩
         repeat (first | exact hw | apply setCell_wf | dsimp only))

theorem toggleTurn_inv (g : Game) :
    (toggleTurn g).board = g.board ∧
    (toggleTurn g).selected_promotion = g.selected_promotion ∧
    (toggleTurn g).en_passant_square = g.en_passant_square ∧
    (toggleTurn g).castlings = g.castlings ∧
    (toggleTurn g).halfmove_clock = g.halfmove_clock := by
  unfold toggleTurn
  split <;> exact ⟨rfl, rfl, rfl, rfl, rfl⟩

theorem recolourPromotion_inv {g g' : Game} (h : recolourPromotion g = .ok g') :
    g'.board = g.board ∧ g'.current_turn = g.current_turn ∧
    g'.en_passant_square = g.en_passant_square ∧ g'.castlings = g.castlings ∧
    g'.halfmove_clock = g.halfmove_clock ∧ g'.turn = g.turn := by
  unfold recolourPromotion at h
  split at h <;>
    first
    | (cases Except.ok.inj h; exact ⟨rfl, rfl, rfl, rfl, rfl, rfl⟩)
    | exact absurd h (by simp)

theorem recolourPromotion_ok_not_pawn {g g' : Game} (h : recolourPromotion g = .ok g') :
    ∀ c, g.selected_promotion ≠ .Pawn c := by
  unfold recolourPromotion at h
  split at h <;> simp_all

theorem takeTurnApply_inv {g1 g' : Game} {r : Option GameState}
    {fromSq toSq : Nat × Nat} {pFrom : Piece}
    (h : takeTurnApply g1 fromSq toSq pFrom = .ok (g', r))
    (hwf : wfBoard g1.board) (hf1 : fromSq.1 < 8) (hf2 : fromSq.2 < 8) :
    wfBoard g'.board ∧ epOK g'.en_passant_square := by
  unfold takeTurnApply at h
  cases hse : (if (pFrom.get_valid_moves fromSq g1.board g1.en_passant_square
      g1.castlings).contains toSq then takeTurnSideEffects g1 toSq pFrom
      else .ok g1) with
  | error e => simp only [hse] at h; exact Except.noConfusion h
  | ok g2 =>
    simp only [hse] at h
    have hwf2 : wfBoard g2.board ∧ g2.en_passant_square = g1.en_passant_square := by
      split at hse
      · obtain ⟨_, hep, _, _, hw⟩ := takeTurnSideEffects_inv hse
        exact ⟨hw hwf, hep⟩
      · cases Except.ok.inj hse; exact ⟨hwf, rfl⟩
    cases hep : takeTurnEp g2 fromSq toSq with
    | error e => simp only [hep] at h; exact Except.noConfusion h
    | ok g3 =>
      simp only [hep] at h
      obtain ⟨hb3, _, _, _, _, _, hep3⟩ := takeTurnEp_inv hep
      have hwf3 : wfBoard g3.board := hb3 ▸ hwf2.1
      have hep3' : epOK g3.en_passant_square := by
        rcases hep3 with h8 | ⟨hle, hcol⟩
        · exact Or.inl h8
        · exact Or.inr ⟨by omega, by omega⟩
      cases hcap : takeTurnCapture { g3 with
          castlings := castleClearSquare (castleClearSquare g3.castlings fromSq) toSq }
          toSq with
      | error e => simp only [hcap] at h; exact Except.noConfusion h
      | ok g6 =>
        simp only [hcap] at h
        obtain ⟨hb6, _, _, _, _, hep6⟩ := takeTurnCapture_inv hcap
        cases hrel : takeTurnRelocate g6 fromSq toSq with
        | error e => simp only [hrel] at h; exact Except.noConfusion h
        | ok g7 =>
          simp only [hrel] at h
          obtain ⟨hw7, _, _, _, _, hep7, _⟩ := takeTurnRelocate_inv hrel
          cases hpro : takeTurnPromote g7 toSq with
          | error e => simp only [hpro] at h; exact Except.noConfusion h
          | ok g8 =>
            simp only [hpro] at h
            obtain ⟨hw8, _, _, _, _, hep8, _⟩ := takeTurnPromote_inv hpro
            cases hrec : recolourPromotion (toggleTurn g8) with
            | error e => simp only [hrec] at h; exact Except.noConfusion h
            | ok g10 =>
              simp only [hrec] at h
              obtain ⟨hb10, _, hep10, _, _, _⟩ := recolourPromotion_inv hrec
              obtain ⟨hb9, _, hep9, _, _⟩ := toggleTurn_inv g8
              injection h with h'
              injection h' with hg hr
              cases hg
              constructor
              · show wfBoard g10.board
                rw [hb10, hb9]
                exact hw8 (hw7 (hb6 ▸ hwf3))
              · show epOK g10.en_passant_square
                rw [hep10, hep9, hep8, hep7, hep6]
                exact hep3'

theorem take_turn_squares_inv {g0 g' : Game} {r : Option GameState}
    {fromSq toSq : Nat × Nat}
    (h : take_turn_squares g0 fromSq toSq = .ok (g', r)) (hwf : wfBoard g0.board)
    (hep : epOK g0.en_passant_square) :
    wfBoard g'.board ∧ epOK g'.en_passant_square := by
  unfold take_turn_squares at h
  cases hr : cell? { g0 with halfmove_clock := g0.halfmove_clock + 1 }.board
      fromSq.1 fromSq.2 with
  | none => simp only [hr] at h; exact Except.noConfusion h
  | some pFrom =>
    simp only [hr] at h
    have hlt := cellq_lt (b := g0.board) hwf hr
    split at h
    · injection h with h'
      injection h' with hg _
      cases hg
      exact ⟨hwf, hep⟩
    · cases hcol : pFrom.get_colour with
      | none => simp only [hcol] at h; exact Except.noConfusion h
      | some c =>
        simp only [hcol] at h
        split at h
        · injection h with h'
          injection h' with hg _
          cases hg
          exact ⟨hwf, hep⟩
        · exact takeTurnApply_inv h hwf hlt.1 hlt.2

theorem take_turn_ok_squares {g : Game} {mov : String} {x : Game × Option GameState}
    (h : take_turn g mov = .ok x) :
    ∃ fromSq toSq, take_turn_squares g fromSq toSq = .ok x := by
  unfold take_turn at h
  cases h0 : (splitOnChar ' ' mov.data).get? 0 with
  | none => simp only [h0] at h; exact Except.noConfusion h
  | some m0 =>
    simp only [h0] at h
    cases hc0 : convChars m0 with
    | none => simp only [hc0] at h; exact Except.noConfusion h
    | some fromSq =>
      simp only [hc0] at h
      cases h1 : (splitOnChar ' ' mov.data).get? 1 with
      | none => simp only [h1] at h; exact Except.noConfusion h
      | some m1 =>
        simp only [h1] at h
        cases hc1 : convChars m1 with
        | none => simp only [hc1] at h; exact Except.noConfusion h
        | some toSq =>
          simp only [hc1] at h
          exact ⟨fromSq, toSq, h⟩

theorem reachable_inv {g : Game} (h : Reachable g) :
    wfBoard g.board ∧ epOK g.en_passant_square := by
  induction h with
  | start =>
    refine ⟨⟨by decide, by decide⟩, Or.inl (by decide)⟩
  | step hre hok ih =>
    obtain ⟨fromSq, toSq, h'⟩ := take_turn_ok_squares hok
    exact take_turn_squares_inv h' ih.1 ih.2

/-- Claim C6 (amended): a FEN with the wrong number of space-separated
fields, or with an unparseable placement character, fails fatally with
the Game unchanged — the field-count assert and the whole placement
computation precede the first assignment.  (Failures in later fields
leave the Game partially updated; see the counterexample.) -/
theorem claim_C6_amended :
    (∀ (g : Game) (fen : String), (splitOnChar ' ' fen.data).length ≠ 6 →
      set_state_from_fen g fen = .error g) ∧
    (∀ (g : Game) (fen : String), (splitOnChar ' ' fen.data).length = 6 →
      parsePlacement ((splitOnChar ' ' fen.data).getD 0 []) = none →
      set_state_from_fen g fen = .error g) := by
  constructor
  · intro g fen hne
    unfold set_state_from_fen
    simp [hne]
  · intro g fen hlen hpl
    unfold set_state_from_fen
    rw [if_neg (by simp [hlen]), hpl]

/-- Witness for the amended C6 at concrete malformed inputs: a
three-field string, and a placement with the unparseable character X. -/
theorem claim_C6_amended_witness :
    set_state_from_fen gameNew "only three fields" = .error gameNew ∧
    set_state_from_fen gameNew "8/8/8/8/8/8/8/X w KQkq - 0 1" = .error gameNew := by
  constructor
  · exact claim_C6_amended.1 gameNew "only three fields" (by decide)
  · exact claim_C6_amended.2 gameNew "8/8/8/8/8/8/8/X w KQkq - 0 1" (by decide) (by decide)

/-- Claim C9 (amended): a FEN reload determines the six FEN-derived
fields — board, side to move, castling rights, en passant target,
halfmove clock, fullmove number — from the FEN string alone: two
successful loads of the same string agree on all of them (the selected
promotion and stored game state, by the counterexample, stay with the
prior state). -/
theorem claim_C9_amended :
    ∀ (ga gb : Game) (fen : String) (ga' gb' : Game),
      set_state_from_fen ga fen = .ok ga' → set_state_from_fen gb fen = .ok gb' →
      ga'.board = gb'.board ∧ ga'.current_turn = gb'.current_turn ∧
      ga'.castlings = gb'.castlings ∧ ga'.en_passant_square = gb'.en_passant_square ∧
      ga'.halfmove_clock = gb'.halfmove_clock ∧ ga'.turn = gb'.turn := by
  intro ga gb fen ga' gb' ha hb
  unfold set_state_from_fen at ha hb
  by_cases hlen : (splitOnChar ' ' fen.data).length ≠ 6
  · rw [if_pos hlen] at ha; exact Except.noConfusion ha
  · rw [if_neg hlen] at ha hb
    cases hpl : parsePlacement ((splitOnChar ' ' fen.data).getD 0 []) with
    | none => simp only [hpl] at ha; exact Except.noConfusion ha
    | some b =>
      simp only [hpl] at ha hb
      cases ht : fenTurnField ((splitOnChar ' ' fen.data).getD 1 []) with
      | none => simp only [ht] at ha; exact Except.noConfusion ha
      | some t =>
        simp only [ht] at ha hb
        cases hep : fenEp ((splitOnChar ' ' fen.data).getD 3 []) with
        | none => simp only [hep] at ha; exact Except.noConfusion ha
        | some ep =>
          simp only [hep] at ha hb
          cases hm : parseNum ((splitOnChar ' ' fen.data).getD 4 []) with
          | none => simp only [hm] at ha; exact Except.noConfusion ha
          | some hmv =>
            simp only [hm] at ha hb
            cases hf : parseNum ((splitOnChar ' ' fen.data).getD 5 []) with
            | none => simp only [hf] at ha; exact Except.noConfusion ha
            | some fmv =>
              simp only [hf] at ha hb
              cases Except.ok.inj ha
              cases Except.ok.inj hb
              exact ⟨rfl, rfl, rfl, rfl, rfl, rfl⟩

/-- Witness for the amended C9: two different prior games, the standard
start FEN, equal positional fields in the two results. -/
theorem claim_C9_amended_witness :
    ∃ ga' gb',
      set_state_from_fen gameNew startFen = .ok ga' ∧
      set_state_from_fen { gameNew with selected_promotion := .Knight .White } startFen =
        .ok gb' ∧
      ga'.board = gb'.board ∧ ga'.current_turn = gb'.current_turn ∧
      ga'.castlings = gb'.castlings ∧ ga'.en_passant_square = gb'.en_passant_square ∧
      ga'.halfmove_clock = gb'.halfmove_clock ∧ ga'.turn = gb'.turn := by
  refine ⟨gameNew, { gameNew with selected_promotion := .Knight .White }, ?ha, ?hb, ?_⟩
  case ha => decide
  case hb => decide
  exact claim_C9_amended gameNew { gameNew with selected_promotion := .Knight .White }
    startFen gameNew { gameNew with selected_promotion := .Knight .White }
    (by decide) (by decide)

theorem cellq_none_of_ge {b : Board} {x : Nat} (y : Nat) (hwf : wfBoard b) (hx : 8 ≤ x) :
    cell? b x y = none := by
  unfold cell?
  have hb := hwf.1
  have : b.get? x = none := List.get?_eq_none.mpr (by omega)
  rw [this]
  rfl

theorem piece_colour_exists {p : Piece} (h : p ≠ .Empty) : ∃ c, p.get_colour = some c := by
  cases p <;> first | exact ⟨_, rfl⟩ | exact absurd rfl h

theorem take_turn_squares_reject {g : Game} {fromSq toSq : Nat × Nat} {p : Piece}
    (hc : cell? g.board fromSq.1 fromSq.2 = some p)
    (hrej : p = .Empty ∨ p.get_colour ≠ some g.current_turn) :
    take_turn_squares g fromSq toSq =
      .ok ({ g with halfmove_clock := g.halfmove_clock + 1 }, none) := by
  unfold take_turn_squares
  dsimp only
  rw [hc]
  dsimp only
  by_cases hpe : p = .Empty
  · rw [if_pos hpe]
  · rw [if_neg hpe]
    obtain ⟨c, hcget⟩ := piece_colour_exists hpe
    rw [hcget]
    dsimp only
    have hcol : p.get_colour ≠ some g.current_turn := by
      rcases hrej with rfl | hcol
      · exact absurd rfl hpe
      · exact hcol
    have hcne : c ≠ g.current_turn := by
      intro he
      exact hcol (by rw [hcget, he])
    rw [if_pos hcne]

theorem takeTurnApply_to8_error {g1 : Game} {fromSq toSq : Nat × Nat} {p : Piece}
    (hwf : wfBoard g1.board) (ht : toSq.1 = 8) :
    ∃ e, takeTurnApply g1 fromSq toSq p = .error e := by
  unfold takeTurnApply
  cases hse : (if (p.get_valid_moves fromSq g1.board g1.en_passant_square
      g1.castlings).contains toSq then takeTurnSideEffects g1 toSq p else .ok g1) with
  | error e => simp only [hse]; exact ⟨e, rfl⟩
  | ok g2 =>
    simp only [hse]
    have hwf2 : wfBoard g2.board := by
      split at hse
      · exact (takeTurnSideEffects_inv hse).2.2.2.2 hwf
      · cases Except.ok.inj hse; exact hwf
    cases hep : takeTurnEp g2 fromSq toSq with
    | error e => simp only [hep]; exact ⟨e, rfl⟩
    | ok g3 =>
      simp only [hep]
      have hwf3 : wfBoard g3.board := (takeTurnEp_inv hep).1 ▸ hwf2
      have hcap : takeTurnCapture { g3 with
          castlings := castleClearSquare (castleClearSquare g3.castlings fromSq) toSq }
          toSq = .error { g3 with
          castlings := castleClearSquare (castleClearSquare g3.castlings fromSq) toSq } := by
        unfold takeTurnCapture
        have : cell? g3.board toSq.1 toSq.2 = none :=
          cellq_none_of_ge toSq.2 hwf3 (by omega)
        rw [show cell? ({ g3 with
            castlings := castleClearSquare (castleClearSquare g3.castlings fromSq) toSq } :
            Game).board toSq.1 toSq.2 = none from this]
      simp only [hcap]
      exact ⟨_, rfl⟩

/-- Claim C10 (amended): under the precondition (file a–h, rank digit
1–8) square conversion always succeeds with an in-board square, so the
conversion error branches are unreachable.  For inputs violating the
shape, take_turn panics — a missing second token or an unconvertible
square panics before anything runs, an origin with rank digit '0'
(which converts, without panicking, to the out-of-range square (8,f))
panics at the board access, and such a destination panics when the
origin is owned by the side to move; but when the origin is empty or
enemy-owned the call instead returns the recoverable rejection, with
the halfmove clock already incremented. -/
theorem claim_C10_amended :
    (∀ f r, f ∈ fileChars → r ∈ rankDigitChars →
      ∃ x y, convert_square (String.mk [f, r]) = some (x, y) ∧ x < 8 ∧ y < 8) ∧
    (∀ f col, charToCol f = some col →
      convert_square (String.mk [f, '0']) = some (8, col)) ∧
    (∀ (g : Game) (mov : String),
      ((splitOnChar ' ' mov.data).get? 1 = none ∨
        (∃ m0, (splitOnChar ' ' mov.data).get? 0 = some m0 ∧ convChars m0 = none) ∨
        (∃ m1, (splitOnChar ' ' mov.data).get? 1 = some m1 ∧ convChars m1 = none)) →
      ∃ e, take_turn g mov = .error e) ∧
    (∀ (g : Game) (fromSq toSq : Nat × Nat), wfBoard g.board → fromSq.1 = 8 →
      ∃ e, take_turn_squares g fromSq toSq = .error e) ∧
    (∀ (g : Game) (fromSq toSq : Nat × Nat) (p : Piece), wfBoard g.board →
      cell? g.board fromSq.1 fromSq.2 = some p → p ≠ .Empty →
      p.get_colour = some g.current_turn → toSq.1 = 8 →
      ∃ e, take_turn_squares g fromSq toSq = .error e) ∧
    (∀ (g : Game) (fromSq toSq : Nat × Nat) (p : Piece),
      cell? g.board fromSq.1 fromSq.2 = some p →
      (p = .Empty ∨ p.get_colour ≠ some g.current_turn) →
      take_turn_squares g fromSq toSq =
        .ok ({ g with halfmove_clock := g.halfmove_clock + 1 }, none)) := by
  refine ⟨?_, ?_, ?_, ?_, ?_, ?_⟩
  · intro f r hf hr
    fin_cases hf <;> fin_cases hr <;> exact ⟨_, _, rfl, by decide, by decide⟩
  · intro f col hf
    unfold convert_square convChars
    simp [hf, charToDigit]
  · intro g mov hbad
    unfold take_turn
    dsimp only
    cases h0 : (splitOnChar ' ' mov.data).get? 0 with
    | none => simp only [h0]; exact ⟨g, rfl⟩
    | some m0 =>
      simp only [h0]
      cases hc0 : convChars m0 with
      | none => simp only [hc0]; exact ⟨g, rfl⟩
      | some fromSq =>
        simp only [hc0]
        cases h1 : (splitOnChar ' ' mov.data).get? 1 with
        | none => simp only [h1]; exact ⟨g, rfl⟩
        | some m1 =>
          simp only [h1]
          cases hc1 : convChars m1 with
          | none => simp only [hc1]; exact ⟨g, rfl⟩
          | some toSq =>
            exfalso
            rcases hbad with hb | ⟨m0', hm0', hcv0⟩ | ⟨m1', hm1', hcv1⟩
            · rw [h1] at hb; exact Option.noConfusion hb
            · rw [h0] at hm0'
              cases Option.some.inj hm0'
              rw [hc0] at hcv0
              exact Option.noConfusion hcv0
            · rw [h1] at hm1'
              cases Option.some.inj hm1'
              rw [hc1] at hcv1
              exact Option.noConfusion hcv1
  · intro g fromSq toSq hwf h8
    unfold take_turn_squares
    dsimp only
    rw [cellq_none_of_ge fromSq.2 hwf (by omega)]
    exact ⟨_, rfl⟩
  · intro g fromSq toSq p hwf hc hne hcol h8
    unfold take_turn_squares
    dsimp only
    rw [hc]
    dsimp only
    rw [if_neg hne, hcol]
    dsimp only
    rw [if_neg (fun hx => hx rfl)]
    exact takeTurnApply_to8_error hwf h8
  · intro g fromSq toSq p hc hrej
    exact take_turn_squares_reject hc hrej

/-- Witness for the amended C10: the well-formed square e2 converts; the
malformed first square "z9" panics; the origin (8,0) (from a rank digit
'0') panics on the standard board; the destination (8,0) with the owned
origin a2 panics; and with the empty origin a3 it is instead rejected
with the clock incremented. -/
theorem claim_C10_amended_witness :
    (∃ x y, convert_square (String.mk ['e', '2']) = some (x, y) ∧ x < 8 ∧ y < 8) ∧
    convert_square (String.mk ['a', '0']) = some (8, 0) ∧
    (∃ e, take_turn gameNew "z9 a3" = .error e) ∧
    (∃ e, take_turn_squares gameNew (8, 0) (5, 0) = .error e) ∧
    (∃ e, take_turn_squares gameNew (6, 0) (8, 0) = .error e) ∧
    take_turn_squares gameNew (5, 0) (8, 0) =
      .ok ({ gameNew with halfmove_clock := 1 }, none) := by
  refine ⟨?_, ?_, ?_, ?_, ?_, ?_⟩
  · exact claim_C10_amended.1 'e' '2' (by decide) (by decide)
  · exact claim_C10_amended.2.1 'a' 0 (by decide)
  · exact claim_C10_amended.2.2.1 gameNew "z9 a3"
      (Or.inr (Or.inl ⟨['z', '9'], by decide, by decide⟩))
  · exact claim_C10_amended.2.2.2.1 gameNew (8, 0) (5, 0) ⟨by decide, by decide⟩ rfl
  · exact claim_C10_amended.2.2.2.2.1 gameNew (6, 0) (8, 0) (.Pawn .White)
      ⟨by decide, by decide⟩ (by decide) (by decide) (by decide) rfl
  · exact claim_C10_amended.2.2.2.2.2 gameNew (5, 0) (8, 0) .Empty (by decide) (Or.inl rfl)

theorem takeTurnSideEffects_pawn_far {g g' : Game} {toSq : Nat × Nat} {c : Colour}
    (h : takeTurnSideEffects g toSq (.Pawn c) = .ok g')
    (hfar : toSq.1 = 0 ∨ toSq.1 = 7) :
    g'.board = g.board ∧ g'.selected_promotion = g.selected_promotion := by
  simp only [takeTurnSideEffects] at h
  split at h
  · rename_i heq
    split at h
    · rename_i h5
      have : toSq.1 = 5 := by rw [heq]; exact h5
      omega
    · rename_i h2
      have : toSq.1 = 2 := by rw [heq]; exact h2
      omega
    · exact Except.noConfusion h
  · cases Except.ok.inj h
    exact ⟨rfl, rfl⟩

theorem takeTurnRelocate_cell {g g' : Game} {fromSq toSq : Nat × Nat} {p : Piece}
    (hp : cell? g.board fromSq.1 fromSq.2 = some p) (hne : fromSq ≠ toSq)
    (h : takeTurnRelocate g fromSq toSq = .ok g') :
    cell? g'.board toSq.1 toSq.2 = some p := by
  unfold takeTurnRelocate at h
  simp only [hp] at h
  cases hs1 : setCell? g.board toSq.1 toSq.2 p with
  | none => simp only [hs1] at h; exact Except.noConfusion h
  | some b1 =>
    simp only [hs1] at h
    cases hs2 : setCell? b1 fromSq.1 fromSq.2 .Empty with
    | none => simp only [hs2] at h; exact Except.noConfusion h
    | some b2 =>
      simp only [hs2] at h
      cases Except.ok.inj h
      have hne' : fromSq.1 ≠ toSq.1 ∨ fromSq.2 ≠ toSq.2 := by
        by_contra hcon
        push_neg at hcon
        exact hne (Prod.ext hcon.1 hcon.2)
      show cell? b2 toSq.1 toSq.2 = some p
      rw [cellq_setCellq_other hs2 hne']
      exact cellq_setCellq_same hs1

theorem takeTurnPromote_writes {g g' : Game} {toSq : Nat × Nat} {c : Colour}
    (hread : cell? g.board toSq.1 toSq.2 = some (.Pawn c))
    (hfar : (c = .White ∧ toSq.1 = 0) ∨ (c = .Black ∧ toSq.1 = 7))
    (h : takeTurnPromote g toSq = .ok g') :
    cell? g'.board toSq.1 toSq.2 = some g.selected_promotion := by
  unfold takeTurnPromote at h
  simp only [hread] at h
  obtain ⟨b', hb'⟩ := setCellq_of_cellq g.selected_promotion hread
  have hset : setCell g.board toSq.1 toSq.2 g.selected_promotion = b' := by
    unfold setCell; rw [hb']; rfl
  have hcellA :
      cell? (setCell g.board toSq.1 toSq.2 g.selected_promotion) toSq.1 toSq.2 =
        some g.selected_promotion := by
    rw [hset]; exact cellq_setCellq_same hb'
  rcases hfar with ⟨rfl, h0⟩ | ⟨rfl, h7⟩
  · rw [if_pos ⟨rfl, h0⟩] at h
    rw [show cell? ({ g with
        board := setCell g.board toSq.1 toSq.2 g.selected_promotion } : Game).board
        toSq.1 toSq.2 = some g.selected_promotion from hcellA] at h
    dsimp only at h
    rw [if_neg (by rintro ⟨-, h7'⟩; omega)] at h
    cases Except.ok.inj h
    exact hcellA
  · rw [if_neg (by rintro ⟨hpw, -⟩; simp at hpw)] at h
    rw [hread] at h
    dsimp only at h
    rw [if_pos ⟨rfl, h7⟩] at h
    cases Except.ok.inj h
    exact hcellA

/-- Claim C7 (amended): when the turn executor accepts a move whose
origin and destination differ and whose origin holds a pawn of the side
to move reaching the farthest rank for its colour, the destination ends
up holding the stored selected promotion piece, and that piece's colour
matches the moving side whenever the stored piece's colour equals the
side to move (the invariant take_turn and select_promotion maintain but
a FEN load does not establish — see the counterexample). -/
theorem claim_C7_amended :
    ∀ (g g' : Game) (r : Option GameState) (fromSq toSq : Nat × Nat) (c : Colour),
      cell? g.board fromSq.1 fromSq.2 = some (.Pawn c) →
      g.current_turn = c →
      ((c = .White ∧ toSq.1 = 0) ∨ (c = .Black ∧ toSq.1 = 7)) →
      fromSq ≠ toSq →
      g.selected_promotion.get_colour = some g.current_turn →
      take_turn_squares g fromSq toSq = .ok (g', r) →
      cell? g'.board toSq.1 toSq.2 = some g.selected_promotion ∧
      g.selected_promotion.get_colour = some c := by
  intro g g' r fromSq toSq c hcell hturn hfar hne hsel h
  refine ⟨?_, hturn ▸ hsel⟩
  unfold take_turn_squares at h
  dsimp only at h
  rw [hcell] at h
  dsimp only at h
  rw [if_neg (by simp)] at h
  dsimp only [Piece.get_colour] at h
  rw [if_neg (fun hx => hx hturn.symm)] at h
  set g1 : Game := { g with halfmove_clock := g.halfmove_clock + 1 } with hg1
  have hcell1 : cell? g1.board fromSq.1 fromSq.2 = some (.Pawn c) := hcell
  have hsel1 : g1.selected_promotion = g.selected_promotion := rfl
  unfold takeTurnApply at h
  cases hse : (if ((Piece.Pawn c).get_valid_moves fromSq g1.board g1.en_passant_square
      g1.castlings).contains toSq then takeTurnSideEffects g1 toSq (.Pawn c)
      else .ok g1) with
  | error e => simp only [hse] at h; exact Except.noConfusion h
  | ok g2 =>
    simp only [hse] at h
    have hb2 : g2.board = g1.board ∧ g2.selected_promotion = g1.selected_promotion := by
      split at hse
      · exact takeTurnSideEffects_pawn_far hse
          (by rcases hfar with ⟨_, h0⟩ | ⟨_, h7⟩; exacts [Or.inl h0, Or.inr h7])
      · cases Except.ok.inj hse; exact ⟨rfl, rfl⟩
    cases hep : takeTurnEp g2 fromSq toSq with
    | error e => simp only [hep] at h; exact Except.noConfusion h
    | ok g3 =>
      simp only [hep] at h
      obtain ⟨hb3, _, hsel3, _, _, _, _⟩ := takeTurnEp_inv hep
      cases hcap : takeTurnCapture { g3 with
          castlings := castleClearSquare (castleClearSquare g3.castlings fromSq) toSq }
          toSq with
      | error e => simp only [hcap] at h; exact Except.noConfusion h
      | ok g6 =>
        simp only [hcap] at h
        obtain ⟨hb6, _, hsel6, _, _, _⟩ := takeTurnCapture_inv hcap
        have hb6' : g6.board = g1.board := by
          rw [hb6]
          show g3.board = g1.board
          rw [hb3, hb2.1]
        have hsel6' : g6.selected_promotion = g.selected_promotion := by
          rw [hsel6]
          show g3.selected_promotion = g.selected_promotion
          rw [hsel3, hb2.2, hsel1]
        cases hrel : takeTurnRelocate g6 fromSq toSq with
        | error e => simp only [hrel] at h; exact Except.noConfusion h
        | ok g7 =>
          simp only [hrel] at h
          obtain ⟨_, _, hsel7, _, _, _, _⟩ := takeTurnRelocate_inv hrel
          have hcell7 : cell? g7.board toSq.1 toSq.2 = some (.Pawn c) :=
            takeTurnRelocate_cell (by rw [hb6']; exact hcell1) hne hrel
          cases hpro : takeTurnPromote g7 toSq with
          | error e => simp only [hpro] at h; exact Except.noConfusion h
          | ok g8 =>
            simp only [hpro] at h
            have hcell8 : cell? g8.board toSq.1 toSq.2 = some g7.selected_promotion :=
              takeTurnPromote_writes hcell7 hfar hpro
            have hsel7' : g7.selected_promotion = g.selected_promotion := by
              rw [hsel7, hsel6']
            cases hrec : recolourPromotion (toggleTurn g8) with
            | error e => simp only [hrec] at h; exact Except.noConfusion h
            | ok g10 =>
              simp only [hrec] at h
              obtain ⟨hb10, _, _, _, _, _⟩ := recolourPromotion_inv hrec
              obtain ⟨hb9, _, _, _, _⟩ := toggleTurn_inv g8
              injection h with h'
              injection h' with hgeq hreq
              cases hgeq
              show cell? g10.board toSq.1 toSq.2 = some g.selected_promotion
              rw [hb10, hb9, hcell8, hsel7']

/-- Witness for the amended C7: on `gameC7w` (Black to move, Black queen
selected through select_promotion, Black pawn b2) the accepted move
b2-b1 leaves the selected Black queen on b1. -/
theorem claim_C7_amended_witness :
    cell? gameC7wAfter.board 7 1 = some gameC7w.selected_promotion ∧
    gameC7w.selected_promotion.get_colour = some Colour.Black := by
  have h6 : take_turn_squares gameC7w (6, 1) (7, 1) = .ok (gameC7wAfter, some .Check) := by
    decide
  exact claim_C7_amended gameC7w gameC7wAfter (some .Check) (6, 1) (7, 1) .Black
    (by decide) (by decide) (Or.inr ⟨rfl, rfl⟩) (by decide) (by decide) h6

theorem splitOnChar_ne_nil (sep : Char) (l : List Char) : splitOnChar sep l ≠ [] := by
  cases l with
  | nil => simp [splitOnChar]
  | cons c rest =>
    unfold splitOnChar
    cases h : splitOnChar sep rest with
    | nil => simp
    | cons cur out =>
      dsimp only
      split <;> simp

theorem splitOnChar_sepFree {sep : Char} :
    ∀ {a : List Char}, (∀ c ∈ a, c ≠ sep) → splitOnChar sep a = [a]
  | [], _ => rfl
  | c :: rest, h => by
    unfold splitOnChar
    have hrest := splitOnChar_sepFree (a := rest) fun x hx => h x (by simp [hx])
    simp only [hrest]
    rw [if_neg (h c (by simp))]

theorem splitOnChar_append {sep : Char} :
    ∀ {a : List Char} (r : List Char), (∀ c ∈ a, c ≠ sep) →
      splitOnChar sep (a ++ sep :: r) = a :: splitOnChar sep r
  | [], r, _ => by
    cases h : splitOnChar sep r with
    | nil => exact absurd h (splitOnChar_ne_nil sep r)
    | cons cur out =>
      show splitOnChar sep (sep :: r) = [] :: (cur :: out)
      unfold splitOnChar
      rw [h]
      simp
  | c :: a', r, h => by
    have hrec := splitOnChar_append (a := a') r fun x hx => h x (by simp [hx])
    cases hsplit : splitOnChar sep r with
    | nil => exact absurd hsplit (splitOnChar_ne_nil sep r)
    | cons cur out =>
      show splitOnChar sep (c :: (a' ++ sep :: r)) = (c :: a') :: (cur :: out)
      unfold splitOnChar
      rw [hrec, hsplit]
      dsimp only
      rw [if_neg (h c (by simp))]

theorem pieceChar_none_iff {p : Piece} : pieceChar p = none ↔ p = .Empty := by
  cases p <;> first | (rename_i c; cases c <;> simp [pieceChar]) | simp [pieceChar]

theorem charPieces_pieceChar {p : Piece} {ch : Char} (h : pieceChar p = some ch) :
    charPieces ch = some [p] := by
  cases p <;>
    first
    | (rename_i c; cases c <;> (simp [pieceChar] at h; subst h; decide))
    | simp [pieceChar] at h

theorem pieceChar_sepFree {p : Piece} {ch : Char} (h : pieceChar p = some ch) :
    ch ≠ '/' ∧ ch ≠ ' ' := by
  cases p <;>
    first
    | (rename_i c; cases c <;> (simp [pieceChar] at h; subst h; decide))
    | simp [pieceChar] at h

theorem digit_charPieces {e : Nat} (h1 : 1 ≤ e) (h8 : e ≤ 8) :
    charPieces (digitChar e) = some (List.replicate e .Empty) := by
  interval_cases e <;> decide

theorem digitChar_sepFree {e : Nat} (h9 : e ≤ 9) :
    digitChar e ≠ '/' ∧ digitChar e ≠ ' ' := by
  interval_cases e <;> decide

theorem charToDigit_digitChar {m : Nat} (h : m ≤ 9) : charToDigit (digitChar m) = some m := by
  interval_cases m <;> decide

theorem parseRank_rankToChars :
    ∀ (row : List Piece) (e : Nat), e + row.length ≤ 8 →
      parseRankChars (rankToChars row e) = some (List.replicate e .Empty ++ row)
  | [], e, hle => by
    unfold rankToChars
    by_cases he : 0 < e
    · rw [if_pos he]
      unfold parseRankChars
      rw [digit_charPieces he (by simpa using hle)]
      simp [parseRankChars]
    · rw [if_neg he]
      have he0 : e = 0 := by omega
      subst he0
      simp [parseRankChars]
  | p :: rest, e, hle => by
    unfold rankToChars
    cases hpc : pieceChar p with
    | none =>
      have hpE : p = .Empty := pieceChar_none_iff.mp hpc
      subst hpE
      rw [parseRank_rankToChars rest (e + 1) (by simp at hle ⊢; omega)]
      simp [List.replicate_succ', List.append_assoc]
    | some ch =>
      have hrest := parseRank_rankToChars rest 0 (by simp at hle ⊢; omega)
      by_cases he : 0 < e
      · rw [if_pos he]
        show parseRankChars (digitChar e :: ch :: rankToChars rest 0) = _
        unfold parseRankChars
        rw [digit_charPieces he (by simp at hle ⊢; omega)]
        unfold parseRankChars
        rw [charPieces_pieceChar hpc]
        rw [hrest]
        simp
      · rw [if_neg he]
        have he0 : e = 0 := by omega
        subst he0
        show parseRankChars (ch :: rankToChars rest 0) = _
        unfold parseRankChars
        rw [charPieces_pieceChar hpc]
        rw [hrest]
        simp

theorem rankToChars_sepFree :
    ∀ (row : List Piece) (e : Nat), e + row.length ≤ 8 →
      ∀ c ∈ rankToChars row e, c ≠ '/' ∧ c ≠ ' '
  | [], e, hle => by
    unfold rankToChars
    by_cases he : 0 < e
    · rw [if_pos he]
      intro c hc
      simp at hc
      subst hc
      exact digitChar_sepFree (by simp at hle; omega)
    · rw [if_neg he]
      intro c hc
      simp at hc
  | p :: rest, e, hle => by
    unfold rankToChars
    cases hpc : pieceChar p with
    | none =>
      exact rankToChars_sepFree rest (e + 1) (by simp at hle ⊢; omega)
    | some ch =>
      intro c hc
      rcases List.mem_append.mp hc with hd | ht
      · by_cases he : 0 < e
        · rw [if_pos he] at hd
          simp at hd
          subst hd
          exact digitChar_sepFree (by simp at hle; omega)
        · rw [if_neg he] at hd
          simp at hd
      · rcases List.mem_cons.mp ht with rfl | hr
        · exact pieceChar_sepFree hpc
        · exact rankToChars_sepFree rest 0 (by simp at hle ⊢; omega) c hr

theorem digitChar_toNat {m : Nat} (h : m ≤ 9) : (digitChar m).toNat = 48 + m := by
  interval_cases m <;> decide

theorem digitChar_isDigit {m : Nat} (h : m ≤ 9) : '0' ≤ digitChar m ∧ digitChar m ≤ '9' := by
  interval_cases m <;> decide

theorem natCharsAux_digits :
    ∀ (fuel n : Nat), n < fuel → ∀ c ∈ natCharsAux fuel n, '0' ≤ c ∧ c ≤ '9'
  | 0, n, hn => by omega
  | fuel + 1, n, hn => by
    unfold natCharsAux
    by_cases h10 : n < 10
    · rw [if_pos h10]
      intro c hc
      simp at hc
      subst hc
      exact digitChar_isDigit (by omega)
    · rw [if_neg h10]
      intro c hc
      rcases List.mem_append.mp hc with hd | ht
      · exact natCharsAux_digits fuel (n / 10) (by omega) c hd
      · simp at ht
        subst ht
        exact digitChar_isDigit (by omega)

theorem natCharsAux_ne_nil (fuel n : Nat) (hn : n < fuel) : natCharsAux fuel n ≠ [] := by
  cases fuel with
  | zero => omega
  | succ fuel =>
    unfold natCharsAux
    split <;> simp

theorem digits_foldl_shift (l : List Char) (a : Nat) :
    l.foldl (fun a c => 10 * a + (c.toNat - 48)) a =
      a * 10 ^ l.length + l.foldl (fun a c => 10 * a + (c.toNat - 48)) 0 := by
  induction l generalizing a with
  | nil => simp
  | cons c rest ih =>
    show List.foldl _ (10 * a + (c.toNat - 48)) rest =
      a * 10 ^ (rest.length + 1) + List.foldl _ (10 * 0 + (c.toNat - 48)) rest
    rw [ih (10 * a + (c.toNat - 48)), ih (10 * 0 + (c.toNat - 48))]
    ring

theorem natCharsAux_foldl :
    ∀ (fuel n : Nat), n < fuel →
      (natCharsAux fuel n).foldl (fun a c => 10 * a + (c.toNat - 48)) 0 = n
  | 0, n, hn => by omega
  | fuel + 1, n, hn => by
    unfold natCharsAux
    by_cases h10 : n < 10
    · rw [if_pos h10]
      show 10 * 0 + ((digitChar n).toNat - 48) = n
      rw [digitChar_toNat (by omega)]
      omega
    · rw [if_neg h10]
      rw [List.foldl_append]
      rw [natCharsAux_foldl fuel (n / 10) (by omega)]
      show 10 * (n / 10) + ((digitChar (n % 10)).toNat - 48) = n
      rw [digitChar_toNat (by omega)]
      omega

theorem parseNum_natChars (n : Nat) : parseNum (natChars n) = some n := by
  unfold parseNum natChars
  have hdig := natCharsAux_digits (n + 1) n (by omega)
  have hne := natCharsAux_ne_nil (n + 1) n (by omega)
  have hhead : (natCharsAux (n + 1) n).head? ≠ some '+' := by
    cases hl : natCharsAux (n + 1) n with
    | nil => simp
    | cons c rest =>
      simp only [List.head?]
      intro hcon
      have hc : c ∈ natCharsAux (n + 1) n := by rw [hl]; simp
      have := hdig c hc
      rw [Option.some.inj hcon] at this
      exact absurd this (by decide)
  rw [if_neg hhead]
  rw [if_pos ⟨hne, List.all_eq_true.mpr fun c hc => decide_eq_true (hdig c hc)⟩]
  rw [natCharsAux_foldl (n + 1) n (by omega)]

theorem natChars_sepFree (n : Nat) : ∀ c ∈ natChars n, c ≠ ' ' := by
  intro c hc
  have := natCharsAux_digits (n + 1) n (by omega) c hc
  intro hcon
  subst hcon
  revert this
  decide

theorem castleChars_spec (cs : Bool × Bool × Bool × Bool) :
    (castleChars cs).contains 'K' = cs.1 ∧ (castleChars cs).contains 'Q' = cs.2.1 ∧
    (castleChars cs).contains 'k' = cs.2.2.1 ∧ (castleChars cs).contains 'q' = cs.2.2.2 ∧
    ∀ c ∈ castleChars cs, c ≠ ' ' := by
  obtain ⟨c1, c2, c3, c4⟩ := cs
  cases c1 <;> cases c2 <;> cases c3 <;> cases c4 <;> decide

theorem fenEp_epChars {x y : Nat} (hx : x ≤ 8) (hy : y ≤ 7) :
    fenEp (epChars x y) = some (x, y) := by
  have hd : charToDigit (digitChar (8 - x)) = some (8 - x) :=
    charToDigit_digitChar (by omega)
  interval_cases y <;>
    · unfold epChars fenEp
      simp only [List.get?]
      rw [if_neg (by decide)]
      simp only [charToCol, hd]
      rw [if_pos (by omega)]
      congr 1
      exact Prod.ext (by omega) rfl

theorem fenEp_sentinel : fenEp (epChars 8 8) = some (8, 8) := by decide

theorem epChars_sepFree (x y : Nat) (hx : x ≤ 8) : ∀ c ∈ epChars x y, c ≠ ' ' := by
  have hd := digitChar_sepFree (e := 8 - x) (by omega)
  match y with
  | 0 | 1 | 2 | 3 | 4 | 5 | 6 | 7 =>
    intro c hc
    simp [epChars] at hc
    rcases hc with rfl | rfl
    · decide
    · exact hd.2
  | n + 8 =>
    intro c hc
    simp [epChars] at hc
    subst hc
    decide

theorem row_eq_cells {r : List Piece} (hr : r.length = 8) :
    ((List.range 8).map fun y => r.getD y .Empty) = r :=
  match r, hr with
  | [_, _, _, _, _, _, _, _], _ => rfl

theorem wf_cells_eq {b : Board} (hwf : wfBoard b) :
    ((List.range 8).map fun x => (List.range 8).map fun y => cell b x y) = b := by
  obtain ⟨hlen, hrows⟩ := hwf
  match b, hlen with
  | [r0, r1, r2, r3, r4, r5, r6, r7], _ =>
    have e0 : ((List.range 8).map fun y => cell [r0, r1, r2, r3, r4, r5, r6, r7] 0 y) = r0 :=
      row_eq_cells (hrows r0 (by simp))
    have e1 : ((List.range 8).map fun y => cell [r0, r1, r2, r3, r4, r5, r6, r7] 1 y) = r1 :=
      row_eq_cells (hrows r1 (by simp))
    have e2 : ((List.range 8).map fun y => cell [r0, r1, r2, r3, r4, r5, r6, r7] 2 y) = r2 :=
      row_eq_cells (hrows r2 (by simp))
    have e3 : ((List.range 8).map fun y => cell [r0, r1, r2, r3, r4, r5, r6, r7] 3 y) = r3 :=
      row_eq_cells (hrows r3 (by simp))
    have e4 : ((List.range 8).map fun y => cell [r0, r1, r2, r3, r4, r5, r6, r7] 4 y) = r4 :=
      row_eq_cells (hrows r4 (by simp))
    have e5 : ((List.range 8).map fun y => cell [r0, r1, r2, r3, r4, r5, r6, r7] 5 y) = r5 :=
      row_eq_cells (hrows r5 (by simp))
    have e6 : ((List.range 8).map fun y => cell [r0, r1, r2, r3, r4, r5, r6, r7] 6 y) = r6 :=
      row_eq_cells (hrows r6 (by simp))
    have e7 : ((List.range 8).map fun y => cell [r0, r1, r2, r3, r4, r5, r6, r7] 7 y) = r7 :=
      row_eq_cells (hrows r7 (by simp))
    show [_, _, _, _, _, _, _, _] = _
    dsimp only
    rw [e0, e1, e2, e3, e4, e5, e6, e7]

theorem rowChars_sepFree (g : Game) (x : Nat) : ∀ c ∈ rowChars g x, c ≠ '/' ∧ c ≠ ' ' :=
  rankToChars_sepFree _ 0 (by simp)

theorem fenPlacement_shape (g : Game) :
    fenPlacementChars g =
      rowChars g 0 ++ '/' :: (rowChars g 1 ++ '/' :: (rowChars g 2 ++ '/' ::
        (rowChars g 3 ++ '/' :: (rowChars g 4 ++ '/' :: (rowChars g 5 ++ '/' ::
        (rowChars g 6 ++ '/' :: rowChars g 7)))))) := by
  show ((List.range 8).flatMap fun x => rowChars g x ++ (if x ≠ 7 then ['/'] else [])) = _
  conv_lhs => rw [show List.range 8 = [0, 1, 2, 3, 4, 5, 6, 7] from rfl]
  simp [List.append_assoc]

theorem placement_split (g : Game) :
    splitOnChar '/' (fenPlacementChars g) =
      [rowChars g 0, rowChars g 1, rowChars g 2, rowChars g 3, rowChars g 4,
       rowChars g 5, rowChars g 6, rowChars g 7] := by
  rw [fenPlacement_shape]
  rw [splitOnChar_append _ fun c hc => (rowChars_sepFree g 0 c hc).1]
  rw [splitOnChar_append _ fun c hc => (rowChars_sepFree g 1 c hc).1]
  rw [splitOnChar_append _ fun c hc => (rowChars_sepFree g 2 c hc).1]
  rw [splitOnChar_append _ fun c hc => (rowChars_sepFree g 3 c hc).1]
  rw [splitOnChar_append _ fun c hc => (rowChars_sepFree g 4 c hc).1]
  rw [splitOnChar_append _ fun c hc => (rowChars_sepFree g 5 c hc).1]
  rw [splitOnChar_append _ fun c hc => (rowChars_sepFree g 6 c hc).1]
  rw [splitOnChar_sepFree fun c hc => (rowChars_sepFree g 7 c hc).1]

theorem parse_fenPlacement (g : Game) (hwf : wfBoard g.board) :
    parsePlacement (fenPlacementChars g) = some g.board := by
  unfold parsePlacement
  rw [placement_split]
  have hrow : ∀ x : Nat,
      parseRankChars (rowChars g x) = some ((List.range 8).map fun y => cell g.board x y) := by
    intro x
    unfold rowChars
    rw [parseRank_rankToChars _ 0 (by simp)]
    simp
  simp only [List.foldr_cons, List.foldr_nil, hrow]
  exact congrArg some (wf_cells_eq hwf)

theorem fenPlacement_spaceFree (g : Game) : ∀ c ∈ fenPlacementChars g, c ≠ ' ' := by
  intro c hc
  unfold fenPlacementChars at hc
  obtain ⟨x, hx, hcx⟩ := List.mem_flatMap.mp hc
  rcases List.mem_append.mp hcx with hr | hslash
  · exact (rowChars_sepFree g x c hr).2
  · split at hslash
    · simp at hslash
      subst hslash
      decide
    · simp at hslash

theorem fen_split (g : Game) (hx : g.en_passant_square.1 ≤ 8) :
    splitOnChar ' ' (fenChars g) =
      [fenPlacementChars g,
       if g.current_turn = .White then ['w'] else ['b'],
       castleChars g.castlings,
       epChars g.en_passant_square.1 g.en_passant_square.2,
       natChars g.halfmove_clock,
       natChars g.turn] := by
  have hshape : fenChars g =
      fenPlacementChars g ++ ' ' ::
        ((if g.current_turn = .White then ['w'] else ['b']) ++ ' ' ::
          (castleChars g.castlings ++ ' ' ::
            (epChars g.en_passant_square.1 g.en_passant_square.2 ++ ' ' ::
              (natChars g.halfmove_clock ++ ' ' :: natChars g.turn)))) := by
    unfold fenChars
    cases hct : g.current_turn <;> simp [List.append_assoc]
  rw [hshape]
  rw [splitOnChar_append _ (fenPlacement_spaceFree g)]
  rw [splitOnChar_append _ (by split <;> decide)]
  rw [splitOnChar_append _ (castleChars_spec g.castlings).2.2.2.2]
  rw [splitOnChar_append _ (epChars_sepFree _ _ hx)]
  rw [splitOnChar_append _ (natChars_sepFree g.halfmove_clock)]
  rw [splitOnChar_sepFree (natChars_sepFree g.turn)]

/-- Claim C5 (amended): for every Game reachable from the standard start
by accepted moves, decoding the encoder's output succeeds and yields a
Game equal in all positional fields; the castling field of the output is
the granted letters in fixed KQkq order — the empty string, not '-',
when no right is granted (the double space this produces still splits
into six fields, so the decode succeeds). -/
theorem claim_C5_round_trip :
    ∀ (g : Game), Reachable g → ∀ (h : Game),
      ∃ h' : Game, set_state_from_fen h (get_fen g) = .ok h' ∧
        h'.board = g.board ∧ h'.current_turn = g.current_turn ∧
        h'.castlings = g.castlings ∧ h'.en_passant_square = g.en_passant_square ∧
        h'.halfmove_clock = g.halfmove_clock ∧ h'.turn = g.turn ∧
        (splitOnChar ' ' (get_fen g).data).getD 2 [] = castleChars g.castlings := by
  intro g hre h
  obtain ⟨hwf, hep⟩ := reachable_inv hre
  have hx : g.en_passant_square.1 ≤ 8 := by
    rcases hep with he | ⟨h1, _⟩
    · rw [he]
    · exact h1
  have hdata : (get_fen g).data = fenChars g := rfl
  have hcs := castleChars_spec g.castlings
  unfold set_state_from_fen
  rw [hdata, fen_split g hx]
  rw [if_neg (by simp)]
  simp only [List.getD_cons_zero, List.getD_cons_succ]
  rw [parse_fenPlacement g hwf]
  dsimp only
  cases hct : g.current_turn with
  | White =>
    rw [if_pos rfl]
    rw [show fenTurnField ['w'] = some Colour.White from rfl]
    dsimp only
    rcases hep with he | ⟨h1, h2⟩
    · rw [show g.en_passant_square = (8, 8) from he]
      dsimp only
      rw [fenEp_sentinel]
      dsimp only
      rw [parseNum_natChars g.halfmove_clock]
      dsimp only
      rw [parseNum_natChars g.turn]
      refine ⟨_, rfl, rfl, rfl, ?_, rfl, rfl, rfl, trivial⟩
      show ((castleChars g.castlings).contains 'K', (castleChars g.castlings).contains 'Q',
        (castleChars g.castlings).contains 'k', (castleChars g.castlings).contains 'q') =
        g.castlings
      rw [hcs.1, hcs.2.1, hcs.2.2.1, hcs.2.2.2.1]
    · rw [fenEp_epChars h1 h2]
      dsimp only
      rw [parseNum_natChars g.halfmove_clock]
      dsimp only
      rw [parseNum_natChars g.turn]
      refine ⟨_, rfl, rfl, rfl, ?_, rfl, rfl, rfl, trivial⟩
      show ((castleChars g.castlings).contains 'K', (castleChars g.castlings).contains 'Q',
        (castleChars g.castlings).contains 'k', (castleChars g.castlings).contains 'q') =
        g.castlings
      rw [hcs.1, hcs.2.1, hcs.2.2.1, hcs.2.2.2.1]
  | Black =>
    rw [if_neg (by decide)]
    rw [show fenTurnField ['b'] = some Colour.Black from rfl]
    dsimp only
    rcases hep with he | ⟨h1, h2⟩
    · rw [show g.en_passant_square = (8, 8) from he]
      dsimp only
      rw [fenEp_sentinel]
      dsimp only
      rw [parseNum_natChars g.halfmove_clock]
      dsimp only
      rw [parseNum_natChars g.turn]
      refine ⟨_, rfl, rfl, rfl, ?_, rfl, rfl, rfl, trivial⟩
      show ((castleChars g.castlings).contains 'K', (castleChars g.castlings).contains 'Q',
        (castleChars g.castlings).contains 'k', (castleChars g.castlings).contains 'q') =
        g.castlings
      rw [hcs.1, hcs.2.1, hcs.2.2.1, hcs.2.2.2.1]
    · rw [fenEp_epChars h1 h2]
      dsimp only
      rw [parseNum_natChars g.halfmove_clock]
      dsimp only
      rw [parseNum_natChars g.turn]
      refine ⟨_, rfl, rfl, rfl, ?_, rfl, rfl, rfl, trivial⟩
      show ((castleChars g.castlings).contains 'K', (castleChars g.castlings).contains 'Q',
        (castleChars g.castlings).contains 'k', (castleChars g.castlings).contains 'q') =
        g.castlings
      rw [hcs.1, hcs.2.1, hcs.2.2.1, hcs.2.2.2.1]

/-- Witness for the amended C5: the round trip at the standard start
(reachable by the empty move sequence). -/
theorem claim_C5_round_trip_witness :
    ∃ h' : Game, set_state_from_fen gameNew (get_fen gameNew) = .ok h' ∧
      h'.board = gameNew.board ∧ h'.current_turn = gameNew.current_turn ∧
      h'.castlings = gameNew.castlings ∧
      h'.en_passant_square = gameNew.en_passant_square ∧
      h'.halfmove_clock = gameNew.halfmove_clock ∧ h'.turn = gameNew.turn ∧
      (splitOnChar ' ' (get_fen gameNew).data).getD 2 [] =
        castleChars gameNew.castlings :=
  claim_C5_round_trip gameNew Reachable.start gameNew
